import Mathlib

/-!
Shallow embedding of the reconciliation engine in
`src/scripts/bulk-create-threads.ts` (the batch sync script of the supadb
repository): the per-record create/update state machine (`createThread`),
the tag get-or-create and association rebuild (`getOrCreateTag`,
`associateTagsWithThread`), the per-group sequencing and outcome counting
(`processGroup`), and the run-level exit status (`main`).

The remote relational store (Supabase tables `threads`, `tags`,
`thread_tags`) and the object storage bucket are modelled as an explicit
`Store` value.  Network calls are modelled by an `Env` oracle: the YouTube
metadata resolver and image download as functions, and each remote-store
call site as an injectable failure flag, since the code branches on the
`{data, error}` result of each call (or, at some sites, silently discards
the error).  Every operation issued is recorded in a trace of `Op`s, so
that claims about which calls a run performs can be stated directly.
-/

namespace Supadb

/-- One entry of the `members` array of a `members.json` file. -/
structure Member where
  name : String
  youtube_id : String
  options : Option (List String)
deriving DecidableEq

/-- The `metadata` fields of a `members.json` file that the engine uses. -/
structure Metadata where
  job : String
  group : String
deriving DecidableEq

/-- The result of resolving a youtube id via the metadata API
(`getChannelInfo`): canonical channel id, display title, chosen thumbnail. -/
structure ChannelInfo where
  channelId : String
  title : String
  thumbnailUrl : String
deriving DecidableEq

/-- A row of the `threads` table. -/
structure Thread where
  id : Nat
  name : String
  youtube_id : String
  youtube_title : String
  avatar_path : String
deriving DecidableEq

/-- A row of the `tags` table. -/
structure Tag where
  id : Nat
  name : String
deriving DecidableEq

/-- The remote state: the three Supabase tables, the storage bucket, and
fresh-key counters standing for the store's key generation. -/
structure Store where
  threads : List Thread
  tags : List Tag
  threadTags : List (Nat × Nat)
  uploads : List String
  nextThreadId : Nat
  nextTagId : Nat
deriving DecidableEq

/-- One remote call issued by the engine, as recorded in a run's trace. -/
inductive Op where
  | apiResolve (yid : String)
  | download (url : String)
  | readThreadByYid (yid : String)
  | readThreadById (id : Nat)
  | readAssocs (tid : Nat)
  | readTagByName (tname : String)
  | insertThread (yid : String)
  | updateThread (id : Nat)
  | deleteThread (id : Nat)
  | insertTag (tname : String)
  | insertAssocs (tid : Nat) (n : Nat)
  | deleteAssocs (tid : Nat)
  | upload (p : String)
deriving DecidableEq

/-- Remote-store or storage mutations (insert / update / delete / upload),
as opposed to reads and external API calls. -/
def Op.isMutation : Op → Bool
  | .insertThread _ => true
  | .updateThread _ => true
  | .deleteThread _ => true
  | .insertTag _ => true
  | .insertAssocs _ _ => true
  | .deleteAssocs _ => true
  | .upload _ => true
  | _ => false

/-- Writes that touch the association set (`thread_tags` table). -/
def Op.isAssocWrite : Op → Bool
  | .insertAssocs _ _ => true
  | .deleteAssocs _ => true
  | _ => false

/-- The external world for one run: the metadata API and image host as
oracles, and one injectable failure flag per remote call site.  A flag set
to `true` makes that call return an error (for reads: `data = null`). -/
structure Env where
  channelInfo : String → Option ChannelInfo
  downloadOk : String → Bool
  now : Nat
  failLookupExisting : Bool
  failFetchCurrent : Bool
  failUpdateName : Bool
  failUpdateTitle : Bool
  failReadAssocs : Bool
  failDeleteAssocs : Bool
  failTagSelect : String → Bool
  failTagInsert : String → Bool
  failInsertAssocs : Bool
  failInsertThread : Bool
  uploadFail : Bool
  failDeleteThread : Bool
  failUpdateAvatar : Bool
  failPostCheck : Bool

/-- All remote-store and storage calls succeed (the network oracles
`channelInfo` / `downloadOk` stay arbitrary). -/
structure Env.NoFaults (e : Env) : Prop where
  lookupOk : e.failLookupExisting = false
  fetchOk : e.failFetchCurrent = false
  updNameOk : e.failUpdateName = false
  updTitleOk : e.failUpdateTitle = false
  readAssocsOk : e.failReadAssocs = false
  delAssocsOk : e.failDeleteAssocs = false
  tagSelOk : ∀ n, e.failTagSelect n = false
  tagInsOk : ∀ n, e.failTagInsert n = false
  insAssocsOk : e.failInsertAssocs = false
  insThreadOk : e.failInsertThread = false
  uploadOk : e.uploadFail = false
  delThreadOk : e.failDeleteThread = false
  updAvatarOk : e.failUpdateAvatar = false

/-- `threads` select by `youtube_id` (`.eq("youtube_id", …).single()`). -/
def Store.findThreadByYid (s : Store) (yid : String) : Option Thread :=
  s.threads.find? (fun t => t.youtube_id == yid)

/-- `threads` select by primary key (`.eq("id", …).single()`). -/
def Store.findThreadById (s : Store) (tid : Nat) : Option Thread :=
  s.threads.find? (fun t => t.id == tid)

/-- `tags` select by name (`.eq("name", …).single()`). -/
def Store.findTagByName (s : Store) (n : String) : Option Tag :=
  s.tags.find? (fun t => t.name == n)

/-- Join a `tag_id` back to its name (the `tags(name)` embedded select). -/
def Store.tagNameById (s : Store) (tagId : Nat) : Option String :=
  (s.tags.find? (fun t => t.id == tagId)).map Tag.name

/-- The current tag names of a thread: select `thread_tags` rows for the
thread and join each to its tag name, dropping dangling rows — the source's
`currentThreadTags.map(tt => tt.tags?.name).filter(Boolean)`. -/
def Store.currentTagNames (s : Store) (tid : Nat) : List String :=
  (s.threadTags.filter (fun p => p.1 == tid)).filterMap (fun p => s.tagNameById p.2)

/-- `threads` update of the `name` column for one row. -/
def Store.updateThreadName (s : Store) (tid : Nat) (newName : String) : Store :=
  { s with threads :=
      s.threads.map (fun t => if t.id == tid then { t with name := newName } else t) }

/-- `threads` update of the `youtube_title` column for one row. -/
def Store.updateThreadTitle (s : Store) (tid : Nat) (newTitle : String) : Store :=
  { s with threads :=
      s.threads.map (fun t => if t.id == tid then { t with youtube_title := newTitle } else t) }

/-- `threads` update of the `avatar_path` column for one row. -/
def Store.updateThreadAvatar (s : Store) (tid : Nat) (p : String) : Store :=
  { s with threads :=
      s.threads.map (fun t => if t.id == tid then { t with avatar_path := p } else t) }

/-- `thread_tags` delete of every association of one thread. -/
def Store.deleteAssocsOf (s : Store) (tid : Nat) : Store :=
  { s with threadTags := s.threadTags.filter (fun p => p.1 != tid) }

/-- `threads` delete by primary key (the creation-path rollback). -/
def Store.deleteThreadById (s : Store) (tid : Nat) : Store :=
  { s with threads := s.threads.filter (fun t => t.id != tid) }

/-- `String.startsWith`, stated on the character lists so that it reduces
definitionally. -/
def strStartsWith (s p : String) : Bool :=
  s.data.take p.data.length == p.data

/-- `getChannelInfo`: a `UC…` channel id is queried directly, an `@handle`
is resolved via `forHandle`; any other shape is rejected locally.  Either
API query is the oracle `env.channelInfo`, keyed by the authored id. -/
def getChannelInfo (env : Env) (youtubeId : String) : Option ChannelInfo :=
  if strStartsWith youtubeId "UC" then env.channelInfo youtubeId
  else if strStartsWith youtubeId "@" then env.channelInfo youtubeId
  else none

/-- `getOrCreateTag`: select by name; on a hit return the row's id, on a
miss insert a new row and return its id.  The insert errors if a row with
that name already exists (modelled from the spec: the `tags` table schema
is not under `src/`; §3 of the spec makes tag names globally unique, so the
insert is modelled as failing on a duplicate name). -/
def getOrCreateTag (env : Env) (tagName : String) (s : Store) :
    Option Nat × Store × List Op :=
  let existingTag := if env.failTagSelect tagName then none else s.findTagByName tagName
  match existingTag with
  | some t => (some t.id, s, [Op.readTagByName tagName])
  | none =>
    if env.failTagInsert tagName || (s.findTagByName tagName).isSome then
      (none, s, [Op.readTagByName tagName, Op.insertTag tagName])
    else
      (some s.nextTagId,
        { s with tags := s.tags ++ [⟨s.nextTagId, tagName⟩], nextTagId := s.nextTagId + 1 },
        [Op.readTagByName tagName, Op.insertTag tagName])

/-- The tag-resolution loop of `associateTagsWithThread`: get-or-create
each name in order, stopping at the first failure. -/
def collectTagIds (env : Env) (names : List String) (s : Store) :
    Option (List Nat) × Store × List Op :=
  match names with
  | [] => (some [], s, [])
  | n :: rest =>
    match getOrCreateTag env n s with
    | (none, s1, ops1) => (none, s1, ops1)
    | (some tagId, s1, ops1) =>
      match collectTagIds env rest s1 with
      | (none, s2, ops2) => (none, s2, ops1 ++ ops2)
      | (some ids, s2, ops2) => (some (tagId :: ids), s2, ops1 ++ ops2)

/-- `associateTagsWithThread`: empty list is a no-op; otherwise resolve all
tag ids, then bulk-insert one `thread_tags` row per resolved id. -/
def associateTagsWithThread (env : Env) (threadId : Nat) (tagNames : List String)
    (s : Store) : Bool × Store × List Op :=
  if tagNames.isEmpty then (true, s, [])
  else
    match collectTagIds env tagNames s with
    | (none, s1, ops1) => (false, s1, ops1)
    | (some tagIds, s1, ops1) =>
      if env.failInsertAssocs then
        (false, s1, ops1 ++ [Op.insertAssocs threadId tagIds.length])
      else
        (true,
          { s1 with threadTags :=
              s1.threadTags ++ tagIds.map (fun tagId => (threadId, tagId)) },
          ops1 ++ [Op.insertAssocs threadId tagIds.length])

/-- The expected tag names of a record: job and group when non-empty
(JS truthiness of the strings), then the member's option tags verbatim. -/
def expectedTagNames (md : Metadata) (member : Member) : List String :=
  (if md.job == "" then [] else [md.job]) ++
  (if md.group == "" then [] else [md.group]) ++
  (match member.options with
   | some opts => opts
   | none => [])

/-- The source's `tagsMatch` test: equal lengths and every expected name
occurs in the current list. -/
def tagsMatch (expected current : List String) : Bool :=
  expected.length == current.length && expected.all (fun t => current.contains t)

/-- Step 4 of the existing path: read current tags (a failed read is
discarded into the empty list by `… || []`); skip when `tagsMatch`;
otherwise delete every association, then recreate the full expected set
when it is non-empty. -/
def syncTags (env : Env) (member : Member) (md : Metadata) (tid : Nat) (s : Store) :
    Bool × Store × List Op :=
  let expected := expectedTagNames md member
  let current := if env.failReadAssocs then [] else s.currentTagNames tid
  if tagsMatch expected current then (true, s, [Op.readAssocs tid])
  else
    if env.failDeleteAssocs then (false, s, [Op.readAssocs tid, Op.deleteAssocs tid])
    else
      let s1 := s.deleteAssocsOf tid
      if expected.isEmpty then (true, s1, [Op.readAssocs tid, Op.deleteAssocs tid])
      else
        match associateTagsWithThread env tid expected s1 with
        | (ok, s2, ops2) => (ok, s2, [Op.readAssocs tid, Op.deleteAssocs tid] ++ ops2)

/-- The existing-entity branch of `createThread`: re-read the row, update
`name` and `youtube_title` only where they differ, then synchronize tags. -/
def existingPath (env : Env) (member : Member) (md : Metadata) (info : ChannelInfo)
    (tid : Nat) (s : Store) : Bool × Store × List Op :=
  match (if env.failFetchCurrent then none else s.findThreadById tid) with
  | none => (false, s, [Op.readThreadById tid])
  | some currentThread =>
    if currentThread.name != member.name && env.failUpdateName then
      (false, s, [Op.readThreadById tid, Op.updateThread tid])
    else
      let s1 := if currentThread.name != member.name
        then s.updateThreadName tid member.name else s
      let ops1 := if currentThread.name != member.name then [Op.updateThread tid] else []
      if currentThread.youtube_title != info.title && env.failUpdateTitle then
        (false, s1, [Op.readThreadById tid] ++ ops1 ++ [Op.updateThread tid])
      else
        let s2 := if currentThread.youtube_title != info.title
          then s1.updateThreadTitle tid info.title else s1
        let ops2 := if currentThread.youtube_title != info.title
          then [Op.updateThread tid] else []
        match syncTags env member md tid s2 with
        | (ok, s3, ops3) => (ok, s3, [Op.readThreadById tid] ++ ops1 ++ ops2 ++ ops3)

/-- The absent-entity branch of `createThread`: download the thumbnail,
insert the row with an empty `avatar_path`, upload the avatar (on upload
failure delete the just-inserted row and fail), patch `avatar_path`, then
associate the full tag set. -/
def creationPath (env : Env) (member : Member) (md : Metadata) (info : ChannelInfo)
    (s : Store) : Bool × Store × List Op :=
  if !env.downloadOk info.thumbnailUrl then
    (false, s, [Op.download info.thumbnailUrl])
  else if env.failInsertThread then
    (false, s, [Op.download info.thumbnailUrl, Op.insertThread info.channelId])
  else
    let tid := s.nextThreadId
    let s1 : Store := { s with
      threads := s.threads ++ [⟨tid, member.name, info.channelId, info.title, ""⟩],
      nextThreadId := tid + 1 }
    let avatarPath := toString tid ++ "/avatar/" ++ toString env.now ++ ".jpg"
    let ops0 := [Op.download info.thumbnailUrl, Op.insertThread info.channelId]
    if env.uploadFail then
      let s2 := if env.failDeleteThread then s1 else s1.deleteThreadById tid
      (false, s2, ops0 ++ [Op.upload avatarPath, Op.deleteThread tid])
    else
      let s2 : Store := { s1 with uploads := s1.uploads ++ [avatarPath] }
      if env.failUpdateAvatar then
        (false, s2, ops0 ++ [Op.upload avatarPath, Op.updateThread tid])
      else
        let s3 := s2.updateThreadAvatar tid avatarPath
        let tagNames := expectedTagNames md member
        if tagNames.isEmpty then
          (true, s3, ops0 ++ [Op.upload avatarPath, Op.updateThread tid])
        else
          match associateTagsWithThread env tid tagNames s3 with
          | (ok, s4, ops4) =>
            (ok, s4, ops0 ++ [Op.upload avatarPath, Op.updateThread tid] ++ ops4)

/-- `createThread`: skip records with an empty youtube id; resolve the
channel; probe the store by the *resolved* canonical channel id (the probe
discards the call's error field, so a failed read is indistinguishable from
absence); then take the existing or the creation branch. -/
def createThread (env : Env) (member : Member) (md : Metadata) (s : Store) :
    Bool × Store × List Op :=
  if member.youtube_id == "" then (true, s, [])
  else
    match getChannelInfo env member.youtube_id with
    | none => (false, s, [Op.apiResolve member.youtube_id])
    | some info =>
      let probe := if env.failLookupExisting then none else s.findThreadByYid info.channelId
      let ops0 := [Op.apiResolve member.youtube_id, Op.readThreadByYid info.channelId]
      match probe with
      | some existingThread =>
        match existingPath env member md info existingThread.id s with
        | (ok, s1, ops1) => (ok, s1, ops0 ++ ops1)
      | none =>
        match creationPath env member md info s with
        | (ok, s1, ops1) => (ok, s1, ops0 ++ ops1)

/-- Per-group outcome counters (`GroupProcessResult` minus the labels). -/
structure GroupResult where
  success : Nat
  skipped : Nat
  failed : Nat
  total : Nat
deriving DecidableEq

/-- A parsed `members.json`: metadata plus the member entries (an entry may
be `undefined` in the source's array, hence `Option`). -/
structure GroupData where
  metadata : Metadata
  members : List (Option Member)

/-- The outcome classification after a successful `createThread`: an empty
youtube id counts as skipped; otherwise re-query the store by the *raw*
authored id (the source's `startsWith("UC") ? x : x` ternary yields the raw
id in both branches, and the re-query's error field is discarded) and count
skipped on a hit, success on a miss. -/
def postCheckCount (env : Env) (member : Member) (s : Store) (r : GroupResult) :
    GroupResult :=
  if member.youtube_id == "" then { r with skipped := r.skipped + 1 }
  else
    let probe := if env.failPostCheck then none
      else s.findThreadByYid
        (if strStartsWith member.youtube_id "UC" then member.youtube_id else member.youtube_id)
    match probe with
    | some _ => { r with skipped := r.skipped + 1 }
    | none => { r with success := r.success + 1 }

/-- The member loop of `processGroup`: `undefined` entries are passed over,
every defined entry runs `createThread` and bumps exactly one counter. -/
def processMembers (env : Env) (md : Metadata) (members : List (Option Member))
    (s : Store) (r : GroupResult) : GroupResult × Store :=
  match members with
  | [] => (r, s)
  | none :: rest => processMembers env md rest s r
  | some member :: rest =>
    match createThread env member md s with
    | (true, s1, _) => processMembers env md rest s1 (postCheckCount env member s1 r)
    | (false, s1, _) => processMembers env md rest s1 { r with failed := r.failed + 1 }

/-- `processGroup`: an unreadable `members.json` yields the zero result;
otherwise `total` is the member count and the loop fills the counters. -/
def processGroup (env : Env) (gd : Option GroupData) (s : Store) : GroupResult × Store :=
  match gd with
  | none => (⟨0, 0, 0, 0⟩, s)
  | some g => processMembers env g.metadata g.members s ⟨0, 0, 0, g.members.length⟩

/-- The group loop of `main`: process every group in order, collecting the
per-group results. -/
def runGroups (env : Env) (gds : List (Option GroupData)) (s : Store) :
    List GroupResult × Store :=
  match gds with
  | [] => ([], s)
  | gd :: rest =>
    match processGroup env gd s with
    | (r, s1) =>
      match runGroups env rest s1 with
      | (rs, s2) => (r :: rs, s2)

/-- `main`'s `totalFailed` reduction over the collected group results. -/
def totalFailed (rs : List GroupResult) : Nat :=
  rs.foldl (fun acc r => acc + r.failed) 0

/-- `main`'s exit contract: `process.exit(1)` when any record failed,
normal termination (exit 0) otherwise. -/
def exitCode (rs : List GroupResult) : Nat :=
  if totalFailed rs > 0 then 1 else 0

/-- Store well-formedness: generated keys are fresh and row keys unique,
as the remote store's key generation guarantees. -/
structure Store.WF (s : Store) : Prop where
  threadIdLt : ∀ t ∈ s.threads, t.id < s.nextThreadId
  tagIdLt : ∀ g ∈ s.tags, g.id < s.nextTagId
  threadIdNodup : (s.threads.map Thread.id).Nodup
  tagIdNodup : (s.tags.map Tag.id).Nodup
  assocThreadLt : ∀ p ∈ s.threadTags, p.1 < s.nextThreadId
  assocTagLt : ∀ p ∈ s.threadTags, p.2 < s.nextTagId

/-- The uniqueness invariant of spec §3: any two thread rows sharing a
`youtube_id` are the same row. -/
def UniqueYid (s : Store) : Prop :=
  ∀ t1 ∈ s.threads, ∀ t2 ∈ s.threads, t1.youtube_id = t2.youtube_id → t1.id = t2.id

/-- Thread-row inserts, singled out for the uniqueness analysis. -/
def Op.isThreadInsert : Op → Bool
  | .insertThread _ => true
  | _ => false

/-! ### Concrete fixtures (for witnesses and counterexamples) -/

/-- An environment in which every remote call succeeds. -/
def noFaultEnv (resolve : String → Option ChannelInfo) (dl : String → Bool) : Env where
  channelInfo := resolve
  downloadOk := dl
  now := 7
  failLookupExisting := false
  failFetchCurrent := false
  failUpdateName := false
  failUpdateTitle := false
  failReadAssocs := false
  failDeleteAssocs := false
  failTagSelect := fun _ => false
  failTagInsert := fun _ => false
  failInsertAssocs := false
  failInsertThread := false
  uploadFail := false
  failDeleteThread := false
  failUpdateAvatar := false
  failPostCheck := false

/-- Metadata API fixture: the channel id `UCx` resolves to itself. -/
def resolveX : String → Option ChannelInfo :=
  fun yid => if yid == "UCx" then some ⟨"UCx", "T", "u"⟩ else none

/-- Metadata API fixture: the handle `@foo` resolves to channel `UCfoo`. -/
def resolveFoo : String → Option ChannelInfo :=
  fun yid => if yid == "@foo" then some ⟨"UCfoo", "T", "u"⟩ else none

/-- Metadata API fixture: the channel id `UCabc` resolves to itself. -/
def resolveAbc : String → Option ChannelInfo :=
  fun yid => if yid == "UCabc" then some ⟨"UCabc", "T", "u"⟩ else none

/-- The empty remote state. -/
def emptyStore : Store := ⟨[], [], [], [], 0, 0⟩

/-- A member record authored by the channel id `UCx`. -/
def memX : Member := ⟨"N", "UCx", none⟩

/-- A member record authored by the handle `@foo`. -/
def memFoo : Member := ⟨"N", "@foo", some ["opt1"]⟩

/-- A member record authored by the channel id `UCabc`. -/
def memAbc : Member := ⟨"N", "UCabc", none⟩

/-- Metadata with empty job and group (contributes no tags). -/
def mdNone : Metadata := ⟨"", ""⟩

/-- Metadata whose job and group coincide, so the desired tag-name list
`["A", "A"]` carries a duplicate. -/
def mdDup : Metadata := ⟨"A", "A"⟩

/-- Metadata contributing the single tag `"A"`. -/
def mdA : Metadata := ⟨"A", ""⟩

/-- Ordinary metadata contributing two distinct tags. -/
def mdVG : Metadata := ⟨"VTuber", "G"⟩

/-- Store for the C3 counterexample: the entity for `UCx` exists with
matching name and title and carries tags `A` and `B`. -/
def storeC3 : Store :=
  ⟨[⟨0, "N", "UCx", "T", "av"⟩], [⟨1, "A"⟩, ⟨2, "B"⟩], [(0, 1), (0, 2)], [], 1, 3⟩

/-- Store for the C5 counterexample: the entity for `UCx` exists and its
association list carries the tag `A` twice. -/
def storeC5 : Store :=
  ⟨[⟨0, "N", "UCx", "T", "av"⟩], [⟨1, "A"⟩], [(0, 1), (0, 1)], [], 1, 2⟩

/-- Store for the C7 counterexample: the entity for `UCx` already exists. -/
def storeC7 : Store := ⟨[⟨0, "N", "UCx", "T", "av"⟩], [], [], [], 1, 0⟩

/-- Store for the C9 counterexample: the tag row `A` already exists. -/
def storeC9 : Store := ⟨[], [⟨0, "A"⟩], [], [], 0, 1⟩

/-- All-succeed environment over the `resolveX` API fixture. -/
def envX : Env := noFaultEnv resolveX (fun _ => true)

/-- All-succeed environment over the `resolveFoo` API fixture. -/
def envFoo : Env := noFaultEnv resolveFoo (fun _ => true)

/-- All-succeed environment over the `resolveAbc` API fixture. -/
def envAbc : Env := noFaultEnv resolveAbc (fun _ => true)

/-- Environment in which the existence probe's read errors (the source
discards that error). -/
def envProbeFail : Env := { envX with failLookupExisting := true }

/-- Environment in which the current-row re-read of the existing path
errors. -/
def envFetchFail : Env := { envX with failFetchCurrent := true }

/-- Environment in which the `tags` select for name `A` errors while the
row exists — the remote-store race shape of C9. -/
def envTagRace : Env := { envX with failTagSelect := fun n => n == "A" }

/-- Environment in which the avatar upload to object storage fails. -/
def envUploadFail : Env := { envFoo with uploadFail := true }

/-- A member whose youtube id has neither the `UC` nor the `@` shape, so
resolution fails locally and the record fails. -/
def memBad : Member := ⟨"N", "x", none⟩

/-- A one-group batch whose single record fails resolution. -/
def gdsBad : List (Option GroupData) := [some ⟨mdNone, [some memBad]⟩]

/-! ### Pure list facts used by the tag-set analysis -/

/-- A duplicate-free list that injects into a list of the same length is
equal to it as a set. -/
theorem mem_iff_of_nodup_inj {e c : List String} (hnd : e.Nodup)
    (hlen : e.length = c.length) (hsub : ∀ x ∈ e, x ∈ c) : ∀ n, n ∈ e ↔ n ∈ c := by
  have hfs : e.toFinset ⊆ c.toFinset := by
    intro x hx
    simp only [List.mem_toFinset] at hx ⊢
    exact hsub x hx
  have hcard : c.toFinset.card ≤ e.toFinset.card := by
    calc c.toFinset.card ≤ c.length := List.toFinset_card_le c
    _ = e.length := hlen.symm
    _ = e.toFinset.card := (List.toFinset_card_of_nodup hnd).symm
  have heq := Finset.eq_of_subset_of_card_le hfs hcard
  intro n
  rw [← List.mem_toFinset, ← List.mem_toFinset (l := c), heq]

theorem filterMap_eq_of_forall₂ {α β : Type} {f : α → Option β} :
    ∀ {ids : List α} {names : List β},
      List.Forall₂ (fun g n => f g = some n) ids names → ids.filterMap f = names := by
  intro ids names h
  induction h with
  | nil => simp
  | cons h _ ih => simp [List.filterMap_cons, h, ih]

theorem tagsMatch_refl (l : List String) : tagsMatch l l = true := by
  simp [tagsMatch, List.all_eq_true]

/-! ### Keyed-list lookup facts -/

theorem find?_key_eq_of_mem {α : Type} {k : α → Nat} {l : List α} {x : α}
    (hnd : (l.map k).Nodup) (hx : x ∈ l) :
    l.find? (fun y => k y == k x) = some x := by
  induction l with
  | nil => cases hx
  | cons a rest ih =>
    rcases List.mem_cons.mp hx with h1 | h1
    · subst h1
      exact List.find?_cons_of_pos _ (by simp)
    · have hne : k a ≠ k x := by
        intro he
        have hmem : k x ∈ rest.map k := List.mem_map_of_mem k h1
        rw [← he] at hmem
        exact (List.nodup_cons.mp (by simpa using hnd)).1 hmem
      rw [List.find?_cons_of_neg _ (by simp [hne])]
      exact ih (List.nodup_cons.mp (by simpa using hnd)).2 h1

theorem find?_key_ne {α : Type} {k : α → Nat} {l : List α} {n : Nat}
    (h : ∀ x ∈ l, k x ≠ n) : l.find? (fun y => k y == n) = none :=
  List.find?_eq_none.mpr (by intro x hx; simpa using h x hx)

theorem find?_tag_append (tags ts : List Tag) (g bound : Nat)
    (hts : ∀ u ∈ ts, bound ≤ u.id) (hg : g < bound) :
    (tags ++ ts).find? (fun t => t.id == g) = tags.find? (fun t => t.id == g) := by
  rw [List.find?_append]
  cases h : tags.find? (fun t => t.id == g) with
  | some t => rfl
  | none =>
    simp only [Option.none_or]
    exact find?_key_ne (k := Tag.id) (by intro x hx; have := hts x hx; omega)

/-- `tagNameById` is unchanged by appending tags with fresh (larger) ids,
for ids below the old bound. -/
theorem tagNameById_extend (s1 s2 : Store) (ts : List Tag)
    (h2 : s2.tags = s1.tags ++ ts) (hts : ∀ u ∈ ts, s1.nextTagId ≤ u.id)
    (g : Nat) (hg : g < s1.nextTagId) :
    s2.tagNameById g = s1.tagNameById g := by
  simp only [Store.tagNameById, h2]
  rw [find?_tag_append s1.tags ts g s1.nextTagId hts hg]

/-! ### `getOrCreateTag` under a fault-free store -/

theorem getOrCreateTag_noFaults (env : Env) (n : String) (s : Store)
    (hnf : env.NoFaults) (hwf : s.WF) :
    ∃ g s2 ops, getOrCreateTag env n s = (some g, s2, ops) ∧
      s2.threads = s.threads ∧ s2.threadTags = s.threadTags ∧ s2.uploads = s.uploads ∧
      s2.nextThreadId = s.nextThreadId ∧
      (∃ ts, s2.tags = s.tags ++ ts ∧ ∀ u ∈ ts, s.nextTagId ≤ u.id) ∧
      s.nextTagId ≤ s2.nextTagId ∧ s2.WF ∧ g < s2.nextTagId ∧
      s2.tagNameById g = some n := by
  cases hfind : s.findTagByName n with
  | some t =>
    have ht : t ∈ s.tags := List.mem_of_find?_eq_some hfind
    have hglt : t.id < s.nextTagId := hwf.tagIdLt t ht
    refine ⟨t.id, s, [Op.readTagByName n],
      by simp [getOrCreateTag, hnf.tagSelOk, hfind],
      rfl, rfl, rfl, rfl, ⟨[], by simp, by simp⟩, le_refl _, hwf, hglt, ?_⟩
    have hfid : s.tags.find? (fun u => u.id == t.id) = some t :=
      find?_key_eq_of_mem hwf.tagIdNodup ht
    have hname : t.name = n := by
      have := List.find?_some hfind
      simpa using this
    simp [Store.tagNameById, hfid, hname]
  | none =>
    refine ⟨s.nextTagId,
      { s with tags := s.tags ++ [⟨s.nextTagId, n⟩], nextTagId := s.nextTagId + 1 },
      [Op.readTagByName n, Op.insertTag n],
      by simp [getOrCreateTag, hnf.tagSelOk, hnf.tagInsOk, hfind],
      rfl, rfl, rfl, rfl,
      ⟨[⟨s.nextTagId, n⟩], rfl, by simp⟩, by dsimp only; omega, ?_,
      by dsimp only; omega, ?_⟩
    · constructor
      · exact hwf.threadIdLt
      · intro g hg
        dsimp only at hg ⊢
        rcases List.mem_append.mp hg with h1 | h1
        · have := hwf.tagIdLt g h1
          omega
        · simp at h1
          subst h1
          dsimp only
          omega
      · exact hwf.threadIdNodup
      · dsimp only
        rw [List.map_append]
        apply List.Nodup.append hwf.tagIdNodup (by simp)
        intro a ha hb
        simp at hb
        subst hb
        rcases List.mem_map.mp ha with ⟨u, hu, he⟩
        have := hwf.tagIdLt u hu
        omega
      · exact hwf.assocThreadLt
      · intro p hp
        dsimp only at hp ⊢
        have := hwf.assocTagLt p hp
        omega
    · have hnone : s.tags.find? (fun u => u.id == s.nextTagId) = none :=
        find?_key_ne (k := Tag.id)
          (by intro x hx; have := hwf.tagIdLt x hx; omega)
      simp [Store.tagNameById, List.find?_append, hnone]

theorem collectTagIds_noFaults (env : Env) (hnf : env.NoFaults) :
    ∀ (names : List String) (s : Store), s.WF →
    ∃ ids s2 ops, collectTagIds env names s = (some ids, s2, ops) ∧
      s2.threads = s.threads ∧ s2.threadTags = s.threadTags ∧ s2.uploads = s.uploads ∧
      s2.nextThreadId = s.nextThreadId ∧
      (∃ ts, s2.tags = s.tags ++ ts ∧ ∀ u ∈ ts, s.nextTagId ≤ u.id) ∧
      s.nextTagId ≤ s2.nextTagId ∧ s2.WF ∧
      (∀ g ∈ ids, g < s2.nextTagId) ∧
      List.Forall₂ (fun g nm => s2.tagNameById g = some nm) ids names := by
  intro names
  induction names with
  | nil =>
    intro s hwf
    exact ⟨[], s, [], by simp [collectTagIds], rfl, rfl, rfl, rfl,
      ⟨[], by simp, by simp⟩, le_refl _, hwf, by simp, List.Forall₂.nil⟩
  | cons nm rest ih =>
    intro s hwf
    obtain ⟨g, s1, ops1, heq1, hth1, htt1, hup1, hnt1, ⟨ts1, hts1, htsge1⟩, hle1,
      hwf1, hg1, hname1⟩ := getOrCreateTag_noFaults env nm s hnf hwf
    obtain ⟨ids, s2, ops2, heq2, hth2, htt2, hup2, hnt2, ⟨ts2, hts2, htsge2⟩, hle2,
      hwf2, hids2, hnames2⟩ := ih s1 hwf1
    refine ⟨g :: ids, s2, ops1 ++ ops2, ?_, hth2.trans hth1, htt2.trans htt1,
      hup2.trans hup1, hnt2.trans hnt1, ?_, le_trans hle1 hle2, hwf2, ?_, ?_⟩
    · simp [collectTagIds, heq1, heq2]
    · refine ⟨ts1 ++ ts2, by rw [hts2, hts1, List.append_assoc], ?_⟩
      intro u hu
      rcases List.mem_append.mp hu with h1 | h1
      · exact htsge1 u h1
      · exact le_trans hle1 (htsge2 u h1)
    · intro x hx
      rcases List.mem_cons.mp hx with h1 | h1
      · subst h1
        omega
      · exact hids2 x h1
    · refine List.Forall₂.cons ?_ hnames2
      rw [tagNameById_extend s1 s2 ts2 hts2 htsge2 g hg1]
      exact hname1

theorem associate_noFaults (env : Env) (tid : Nat) (names : List String) (s : Store)
    (hnf : env.NoFaults) (hwf : s.WF) (htid : tid < s.nextThreadId) :
    ∃ s2 ops, associateTagsWithThread env tid names s = (true, s2, ops) ∧
      s2.threads = s.threads ∧ s2.uploads = s.uploads ∧
      s2.nextThreadId = s.nextThreadId ∧ s2.WF ∧
      s2.currentTagNames tid = s.currentTagNames tid ++ names := by
  cases names with
  | nil =>
    exact ⟨s, [], by simp [associateTagsWithThread], rfl, rfl, rfl, hwf, by simp⟩
  | cons nm rest =>
    obtain ⟨ids, s1, ops1, heq1, hth1, htt1, hup1, hnt1, ⟨ts1, hts1, htsge1⟩, hle1,
      hwf1, hids1, hnames1⟩ := collectTagIds_noFaults env hnf (nm :: rest) s hwf
    refine ⟨{ s1 with threadTags := s1.threadTags ++ ids.map (fun g => (tid, g)) },
      ops1 ++ [Op.insertAssocs tid ids.length], ?_, hth1, hup1, hnt1, ?_, ?_⟩
    · simp [associateTagsWithThread, heq1, hnf.insAssocsOk]
    · constructor
      · intro t ht
        dsimp only at ht ⊢
        rw [hth1] at ht
        rw [hnt1]
        exact hwf.threadIdLt t ht
      · intro u hu
        dsimp only at hu
        exact hwf1.tagIdLt u hu
      · dsimp only
        rw [hth1]
        exact hwf.threadIdNodup
      · exact hwf1.tagIdNodup
      · intro p hp
        dsimp only at hp ⊢
        rcases List.mem_append.mp hp with h1 | h1
        · have := hwf1.assocThreadLt p h1
          rw [hnt1] at this
          rw [hnt1]
          exact this
        · rcases List.mem_map.mp h1 with ⟨g, hg, he⟩
          subst he
          dsimp only
          rw [hnt1]
          exact htid
      · intro p hp
        dsimp only at hp ⊢
        rcases List.mem_append.mp hp with h1 | h1
        · exact hwf1.assocTagLt p h1
        · rcases List.mem_map.mp h1 with ⟨g, hg, he⟩
          subst he
          dsimp only
          exact hids1 g hg
    · simp only [Store.currentTagNames]
      rw [htt1, List.filter_append]
      have hnew : (ids.map (fun g => (tid, g))).filter (fun p => p.1 == tid)
          = ids.map (fun g => (tid, g)) := by
        apply List.filter_eq_self.mpr
        intro p hp
        rcases List.mem_map.mp hp with ⟨g, hg, he⟩
        subst he
        simp
      rw [hnew, List.filterMap_append]
      congr 1
      · -- the pre-existing rows resolve to the same names in the extended store
        apply List.filterMap_congr
        intro p hp
        have hmem : p ∈ s.threadTags := List.mem_of_mem_filter hp
        have hlt : p.2 < s.nextTagId := hwf.assocTagLt p hmem
        exact tagNameById_extend s s1 ts1 hts1 htsge1 p.2 hlt
      · rw [List.filterMap_map]
        exact filterMap_eq_of_forall₂ hnames1

/-! ### Thread-table updates and association deletes -/

theorem WF_map_threads (s : Store) (f : Thread → Thread) (hid : ∀ t, (f t).id = t.id)
    (hwf : s.WF) : Store.WF { s with threads := s.threads.map f } := by
  constructor
  · intro t ht
    dsimp only at ht ⊢
    rcases List.mem_map.mp ht with ⟨u, hu, he⟩
    subst he
    rw [hid]
    exact hwf.threadIdLt u hu
  · exact hwf.tagIdLt
  · dsimp only
    have hmm : (s.threads.map f).map Thread.id = s.threads.map Thread.id := by
      rw [List.map_map]
      exact List.map_congr_left (fun t _ => hid t)
    rw [hmm]
    exact hwf.threadIdNodup
  · exact hwf.tagIdNodup
  · exact hwf.assocThreadLt
  · exact hwf.assocTagLt

theorem findThreadByYid_map (s : Store) (f : Thread → Thread)
    (hyid : ∀ t, (f t).youtube_id = t.youtube_id) (yid : String) :
    Store.findThreadByYid { s with threads := s.threads.map f } yid
      = (s.findThreadByYid yid).map f := by
  simp only [Store.findThreadByYid]
  rw [List.find?_map]
  have hp : ((fun t => t.youtube_id == yid) ∘ f) = (fun t => t.youtube_id == yid) := by
    funext t
    simp [Function.comp, hyid]
  rw [hp]

theorem findThreadById_map (s : Store) (f : Thread → Thread)
    (hid : ∀ t, (f t).id = t.id) (tid : Nat) :
    Store.findThreadById { s with threads := s.threads.map f } tid
      = (s.findThreadById tid).map f := by
  simp only [Store.findThreadById]
  rw [List.find?_map]
  have hp : ((fun t => t.id == tid) ∘ f) = (fun t => t.id == tid) := by
    funext t
    simp [Function.comp, hid]
  rw [hp]

theorem filter_bne_beq (l : List (Nat × Nat)) (tid : Nat) :
    (l.filter (fun p => p.1 != tid)).filter (fun p => p.1 == tid) = [] := by
  induction l with
  | nil => rfl
  | cons p rest ih =>
    by_cases h : p.1 = tid
    · simp [List.filter_cons, h, ih]
    · simp [List.filter_cons, h, ih]

theorem currentTagNames_deleteAssocsOf (s : Store) (tid : Nat) :
    (s.deleteAssocsOf tid).currentTagNames tid = [] := by
  simp only [Store.currentTagNames, Store.deleteAssocsOf]
  rw [filter_bne_beq]
  rfl

theorem WF_deleteAssocsOf (s : Store) (tid : Nat) (hwf : s.WF) :
    (s.deleteAssocsOf tid).WF := by
  constructor
  · exact hwf.threadIdLt
  · exact hwf.tagIdLt
  · exact hwf.threadIdNodup
  · exact hwf.tagIdNodup
  · intro p hp
    exact hwf.assocThreadLt p (List.mem_of_mem_filter hp)
  · intro p hp
    exact hwf.assocTagLt p (List.mem_of_mem_filter hp)

theorem mem_key_unique {α : Type} {k : α → Nat} {l : List α} {x y : α}
    (hnd : (l.map k).Nodup) (hx : x ∈ l) (hy : y ∈ l) (he : k x = k y) : x = y := by
  have f1 := find?_key_eq_of_mem (k := k) hnd hx
  have f2 := find?_key_eq_of_mem (k := k) hnd hy
  rw [he] at f1
  exact Option.some.inj (f1.symm.trans f2)

theorem updateThreadName_self (s : Store) (t0 : Thread) (hwf : s.WF)
    (ht0 : t0 ∈ s.threads) : s.updateThreadName t0.id t0.name = s := by
  simp only [Store.updateThreadName]
  have hmap : s.threads.map
      (fun t => if t.id == t0.id then { t with name := t0.name } else t) = s.threads := by
    have hcg := List.map_congr_left (l := s.threads) (g := id)
      (f := fun t => if t.id == t0.id then { t with name := t0.name } else t) ?_
    · rw [hcg, List.map_id]
    · intro t ht
      by_cases h : t.id = t0.id
      · have ht' : t = t0 := mem_key_unique (k := Thread.id) hwf.threadIdNodup ht ht0 h
        subst ht'
        simp
      · simp [h]
  rw [hmap]

theorem updateThreadTitle_self (s : Store) (t0 : Thread) (hwf : s.WF)
    (ht0 : t0 ∈ s.threads) : s.updateThreadTitle t0.id t0.youtube_title = s := by
  simp only [Store.updateThreadTitle]
  have hmap : s.threads.map
      (fun t => if t.id == t0.id then { t with youtube_title := t0.youtube_title } else t)
      = s.threads := by
    have hcg := List.map_congr_left (l := s.threads) (g := id)
      (f := fun t => if t.id == t0.id then { t with youtube_title := t0.youtube_title }
        else t) ?_
    · rw [hcg, List.map_id]
    · intro t ht
      by_cases h : t.id = t0.id
      · have ht' : t = t0 := mem_key_unique (k := Thread.id) hwf.threadIdNodup ht ht0 h
        subst ht'
        simp
      · simp [h]
  rw [hmap]

theorem findThreadByYid_congr (s1 s2 : Store) (h : s2.threads = s1.threads) (y : String) :
    s2.findThreadByYid y = s1.findThreadByYid y := by
  simp [Store.findThreadByYid, h]

theorem findThreadById_congr (s1 s2 : Store) (h : s2.threads = s1.threads) (tid : Nat) :
    s2.findThreadById tid = s1.findThreadById tid := by
  simp [Store.findThreadById, h]

/-! ### The tag-synchronization block of the existing path -/

theorem syncTags_noFaults (env : Env) (member : Member) (md : Metadata) (tid : Nat)
    (s : Store) (hnf : env.NoFaults) (hwf : s.WF) (htid : tid < s.nextThreadId) :
    ∃ s2 ops, syncTags env member md tid s = (true, s2, ops) ∧
      s2.threads = s.threads ∧ s2.uploads = s.uploads ∧
      s2.nextThreadId = s.nextThreadId ∧ s2.WF ∧
      tagsMatch (expectedTagNames md member) (s2.currentTagNames tid) = true ∧
      ((s2 = s ∧ tagsMatch (expectedTagNames md member) (s.currentTagNames tid) = true) ∨
        s2.currentTagNames tid = expectedTagNames md member) ∧
      (ops.any Op.isAssocWrite
        = !(tagsMatch (expectedTagNames md member) (s.currentTagNames tid))) := by
  cases hm : tagsMatch (expectedTagNames md member) (s.currentTagNames tid) with
  | true =>
    refine ⟨s, [Op.readAssocs tid], ?_, rfl, rfl, rfl, hwf, hm, Or.inl ⟨rfl, rfl⟩, ?_⟩
    · simp [syncTags, hnf.readAssocsOk, hm]
    · simp [Op.isAssocWrite]
  | false =>
    have hdwf := WF_deleteAssocsOf s tid hwf
    have hcur := currentTagNames_deleteAssocsOf s tid
    cases hshape : expectedTagNames md member with
    | nil =>
      rw [hshape] at hm
      refine ⟨s.deleteAssocsOf tid, [Op.readAssocs tid, Op.deleteAssocs tid], ?_,
        rfl, rfl, rfl, hdwf, ?_, Or.inr hcur, ?_⟩
      · simp [syncTags, hnf.readAssocsOk, hm, hnf.delAssocsOk, hshape]
      · rw [hcur]
        exact tagsMatch_refl []
      · simp [Op.isAssocWrite]
    | cons a rest =>
      rw [hshape] at hm
      obtain ⟨s2, ops2, heqA, hthA, hupA, hntA, hwfA, hcurA⟩ :=
        associate_noFaults env tid (a :: rest) (s.deleteAssocsOf tid) hnf hdwf htid
      rw [hcur] at hcurA
      have hcurA2 : s2.currentTagNames tid = a :: rest := by simpa using hcurA
      refine ⟨s2, [Op.readAssocs tid, Op.deleteAssocs tid] ++ ops2, ?_,
        hthA, hupA, hntA, hwfA, ?_, Or.inr hcurA2, ?_⟩
      · simp [syncTags, hnf.readAssocsOk, hm, hnf.delAssocsOk, hshape, heqA]
      · rw [hcurA2]
        exact tagsMatch_refl _
      · simp [Op.isAssocWrite]

theorem WF_updateThreadName (s : Store) (tid : Nat) (n : String) (hwf : s.WF) :
    (s.updateThreadName tid n).WF :=
  WF_map_threads s _ (by intro t; by_cases h : t.id = tid <;> simp [h]) hwf

theorem WF_updateThreadTitle (s : Store) (tid : Nat) (ti : String) (hwf : s.WF) :
    (s.updateThreadTitle tid ti).WF :=
  WF_map_threads s _ (by intro t; by_cases h : t.id = tid <;> simp [h]) hwf

theorem findThreadByYid_updateName (s : Store) (tid : Nat) (n : String) (y : String) :
    (s.updateThreadName tid n).findThreadByYid y
      = (s.findThreadByYid y).map
        (fun t => if t.id == tid then { t with name := n } else t) :=
  findThreadByYid_map s _ (by intro t; by_cases h : t.id = tid <;> simp [h]) y

theorem findThreadByYid_updateTitle (s : Store) (tid : Nat) (ti : String) (y : String) :
    (s.updateThreadTitle tid ti).findThreadByYid y
      = (s.findThreadByYid y).map
        (fun t => if t.id == tid then { t with youtube_title := ti } else t) :=
  findThreadByYid_map s _ (by intro t; by_cases h : t.id = tid <;> simp [h]) y

theorem findThreadById_updateName (s : Store) (tid : Nat) (n : String) (x : Nat) :
    (s.updateThreadName tid n).findThreadById x
      = (s.findThreadById x).map
        (fun t => if t.id == tid then { t with name := n } else t) :=
  findThreadById_map s _ (by intro t; by_cases h : t.id = tid <;> simp [h]) x

theorem findThreadById_updateTitle (s : Store) (tid : Nat) (ti : String) (x : Nat) :
    (s.updateThreadTitle tid ti).findThreadById x
      = (s.findThreadById x).map
        (fun t => if t.id == tid then { t with youtube_title := ti } else t) :=
  findThreadById_map s _ (by intro t; by_cases h : t.id = tid <;> simp [h]) x

/-! ### The existing path under a fault-free store -/

theorem existingPath_noFaults (env : Env) (member : Member) (md : Metadata)
    (info : ChannelInfo) (t0 : Thread) (s : Store)
    (hnf : env.NoFaults) (hwf : s.WF) (ht0 : t0 ∈ s.threads) :
    ∃ s2 ops, existingPath env member md info t0.id s = (true, s2, ops) ∧
      s2.WF ∧ s2.uploads = s.uploads ∧ s2.nextThreadId = s.nextThreadId ∧
      (∀ yid, s2.findThreadByYid yid = (s.findThreadByYid yid).map
        (fun t => if t.id == t0.id then
          { t with name := member.name, youtube_title := info.title } else t)) ∧
      s2.findThreadById t0.id
        = some { t0 with name := member.name, youtube_title := info.title } ∧
      tagsMatch (expectedTagNames md member) (s2.currentTagNames t0.id) = true ∧
      ((s2.currentTagNames t0.id = s.currentTagNames t0.id ∧
          tagsMatch (expectedTagNames md member) (s.currentTagNames t0.id) = true) ∨
        s2.currentTagNames t0.id = expectedTagNames md member) ∧
      (ops.any Op.isAssocWrite
        = !(tagsMatch (expectedTagNames md member) (s.currentTagNames t0.id))) := by
  have hfid : s.findThreadById t0.id = some t0 :=
    find?_key_eq_of_mem (k := Thread.id) hwf.threadIdNodup ht0
  have htidlt : t0.id < s.nextThreadId := hwf.threadIdLt t0 ht0
  have hWF1 : (s.updateThreadName t0.id member.name).WF :=
    WF_updateThreadName s t0.id member.name hwf
  have hWFU : ((s.updateThreadName t0.id member.name).updateThreadTitle t0.id info.title).WF :=
    WF_updateThreadTitle _ t0.id info.title hWF1
  obtain ⟨s2, ops3, heqS, hthS, hupS, hntS, hwfS, hmS, hdisjS, hopsS⟩ :=
    syncTags_noFaults env member md t0.id
      ((s.updateThreadName t0.id member.name).updateThreadTitle t0.id info.title)
      hnf hWFU htidlt
  -- conclusions about the final store, independent of which updates fired
  have hC3 : s2.uploads = s.uploads := hupS
  have hC4 : s2.nextThreadId = s.nextThreadId := hntS
  have hC5 : ∀ yid, s2.findThreadByYid yid = (s.findThreadByYid yid).map
      (fun t => if t.id == t0.id then
        { t with name := member.name, youtube_title := info.title } else t) := by
    intro yid
    rw [findThreadByYid_congr _ s2 hthS yid, findThreadByYid_updateTitle,
      findThreadByYid_updateName]
    cases ho : s.findThreadByYid yid with
    | none => rfl
    | some t =>
      by_cases h : t.id = t0.id <;> simp [h]
  have hC6 : s2.findThreadById t0.id
      = some { t0 with name := member.name, youtube_title := info.title } := by
    rw [findThreadById_congr _ s2 hthS, findThreadById_updateTitle,
      findThreadById_updateName, hfid]
    simp
  have hC8 : (s2.currentTagNames t0.id = s.currentTagNames t0.id ∧
        tagsMatch (expectedTagNames md member) (s.currentTagNames t0.id) = true) ∨
      s2.currentTagNames t0.id = expectedTagNames md member := by
    rcases hdisjS with ⟨hs2eq, hm⟩ | hR
    · left
      constructor
      · rw [hs2eq]
        rfl
      · exact hm
    · right
      exact hR
  have hops' : ops3.any Op.isAssocWrite
      = !(tagsMatch (expectedTagNames md member) (s.currentTagNames t0.id)) := hopsS
  -- the name comparison and the title comparison each either fire or not
  cases hname : t0.name == member.name with
  | true =>
    have hEqName : t0.name = member.name := by simpa using hname
    cases htitle : t0.youtube_title == info.title with
    | true =>
      have hEqTitle : t0.youtube_title = info.title := by simpa using htitle
      have hUeq : (s.updateThreadName t0.id member.name).updateThreadTitle t0.id info.title
          = s := by
        rw [← hEqName, updateThreadName_self s t0 hwf ht0, ← hEqTitle,
          updateThreadTitle_self s t0 hwf ht0]
      rw [hUeq] at heqS
      refine ⟨s2, [Op.readThreadById t0.id] ++ ops3, ?_, hwfS, hC3, hC4, hC5, hC6, hmS,
        hC8, ?_⟩
      · simp [existingPath, hnf.fetchOk, hfid, hnf.updNameOk, hnf.updTitleOk, bne, hname,
          htitle, heqS]
      · simp [Op.isAssocWrite, hops']
    | false =>
      have hUeq : (s.updateThreadName t0.id member.name).updateThreadTitle t0.id info.title
          = s.updateThreadTitle t0.id info.title := by
        rw [← hEqName, updateThreadName_self s t0 hwf ht0]
      rw [hUeq] at heqS
      refine ⟨s2, [Op.readThreadById t0.id] ++ [Op.updateThread t0.id] ++ ops3, ?_, hwfS,
        hC3, hC4, hC5, hC6, hmS, hC8, ?_⟩
      · simp [existingPath, hnf.fetchOk, hfid, hnf.updNameOk, hnf.updTitleOk, bne, hname,
          htitle, heqS]
      · simp [Op.isAssocWrite, hops']
  | false =>
    have ht1 : ({ t0 with name := member.name } : Thread)
        ∈ (s.updateThreadName t0.id member.name).threads := by
      have hmm := List.mem_map_of_mem
        (fun t => if t.id == t0.id then { t with name := member.name } else t) ht0
      dsimp only at hmm
      have hred : (if (t0.id == t0.id) = true then
          ({ t0 with name := member.name } : Thread) else t0)
          = { t0 with name := member.name } := by simp
      rw [hred] at hmm
      exact hmm
    cases htitle : t0.youtube_title == info.title with
    | true =>
      have hEqTitle : t0.youtube_title = info.title := by simpa using htitle
      have hUeq : (s.updateThreadName t0.id member.name).updateThreadTitle t0.id info.title
          = s.updateThreadName t0.id member.name := by
        have hs := updateThreadTitle_self (s.updateThreadName t0.id member.name)
          { t0 with name := member.name } hWF1 ht1
        dsimp only at hs
        rw [hEqTitle] at hs
        exact hs
      rw [hUeq] at heqS
      refine ⟨s2, [Op.readThreadById t0.id] ++ [Op.updateThread t0.id] ++ ops3, ?_, hwfS,
        hC3, hC4, hC5, hC6, hmS, hC8, ?_⟩
      · simp [existingPath, hnf.fetchOk, hfid, hnf.updNameOk, hnf.updTitleOk, bne, hname,
          htitle, heqS]
      · simp [Op.isAssocWrite, hops']
    | false =>
      refine ⟨s2, [Op.readThreadById t0.id] ++ [Op.updateThread t0.id]
        ++ [Op.updateThread t0.id] ++ ops3, ?_, hwfS, hC3, hC4, hC5, hC6, hmS, hC8, ?_⟩
      · simp [existingPath, hnf.fetchOk, hfid, hnf.updNameOk, hnf.updTitleOk, bne, hname,
          htitle, heqS]
      · simp [Op.isAssocWrite, hops']

/-! ### Tag operations never touch the `threads` table -/

theorem getOrCreateTag_effects (env : Env) (n : String) (s : Store) :
    (getOrCreateTag env n s).2.1.threads = s.threads ∧
    (getOrCreateTag env n s).2.1.nextThreadId = s.nextThreadId ∧
    (∀ o ∈ (getOrCreateTag env n s).2.2, o.isThreadInsert = false) := by
  rcases hsel : (if env.failTagSelect n then none else s.findTagByName n) with _ | t
  · cases hins : (env.failTagInsert n || (s.findTagByName n).isSome) with
    | true =>
      refine ⟨?_, ?_, ?_⟩ <;> simp [getOrCreateTag, hsel, hins, Op.isThreadInsert]
    | false =>
      refine ⟨?_, ?_, ?_⟩ <;> simp [getOrCreateTag, hsel, hins, Op.isThreadInsert]
  · refine ⟨?_, ?_, ?_⟩ <;> simp [getOrCreateTag, hsel, Op.isThreadInsert]

theorem collectTagIds_effects (env : Env) :
    ∀ (names : List String) (s : Store),
      (collectTagIds env names s).2.1.threads = s.threads ∧
      (collectTagIds env names s).2.1.nextThreadId = s.nextThreadId ∧
      (∀ o ∈ (collectTagIds env names s).2.2, o.isThreadInsert = false) := by
  intro names
  induction names with
  | nil => intro s; exact ⟨rfl, rfl, by simp [collectTagIds]⟩
  | cons nm rest ih =>
    intro s
    obtain ⟨hth1, hnt1, hops1⟩ := getOrCreateTag_effects env nm s
    rcases hg : getOrCreateTag env nm s with ⟨og, s1, ops1⟩
    rw [hg] at hth1 hnt1 hops1
    dsimp only at hth1 hnt1 hops1
    cases og with
    | none =>
      exact ⟨by simp [collectTagIds, hg, hth1], by simp [collectTagIds, hg, hnt1],
        by simp only [collectTagIds, hg]; exact hops1⟩
    | some g =>
      obtain ⟨hth2, hnt2, hops2⟩ := ih s1
      rcases hc : collectTagIds env rest s1 with ⟨oids, s2, ops2⟩
      rw [hc] at hth2 hnt2 hops2
      dsimp only at hth2 hnt2 hops2
      have hmem : ∀ o ∈ ops1 ++ ops2, o.isThreadInsert = false := by
        intro o ho
        rcases List.mem_append.mp ho with h | h
        · exact hops1 o h
        · exact hops2 o h
      cases oids with
      | none =>
        exact ⟨by simp [collectTagIds, hg, hc, hth2, hth1],
          by simp [collectTagIds, hg, hc, hnt2, hnt1],
          by simp only [collectTagIds, hg, hc]; exact hmem⟩
      | some ids =>
        exact ⟨by simp [collectTagIds, hg, hc, hth2, hth1],
          by simp [collectTagIds, hg, hc, hnt2, hnt1],
          by simp only [collectTagIds, hg, hc]; exact hmem⟩

theorem associate_effects (env : Env) (tid : Nat) (names : List String) (s : Store) :
    (associateTagsWithThread env tid names s).2.1.threads = s.threads ∧
    (associateTagsWithThread env tid names s).2.1.nextThreadId = s.nextThreadId ∧
    (∀ o ∈ (associateTagsWithThread env tid names s).2.2, o.isThreadInsert = false) := by
  cases hempty : names.isEmpty with
  | true => refine ⟨?_, ?_, ?_⟩ <;> simp [associateTagsWithThread, hempty]
  | false =>
    obtain ⟨hth1, hnt1, hops1⟩ := collectTagIds_effects env names s
    rcases hc : collectTagIds env names s with ⟨oids, s1, ops1⟩
    rw [hc] at hth1 hnt1 hops1
    dsimp only at hth1 hnt1 hops1
    cases oids with
    | none =>
      exact ⟨by simp [associateTagsWithThread, hempty, hc, hth1],
        by simp [associateTagsWithThread, hempty, hc, hnt1],
        by simp only [associateTagsWithThread, hempty, hc, Bool.false_eq_true, if_false]
           exact hops1⟩
    | some ids =>
      have hmem : ∀ o ∈ ops1 ++ [Op.insertAssocs tid ids.length],
          o.isThreadInsert = false := by
        intro o ho
        rcases List.mem_append.mp ho with h | h
        · exact hops1 o h
        · simp at h
          subst h
          rfl
      cases hia : env.failInsertAssocs with
      | true =>
        exact ⟨by simp [associateTagsWithThread, hempty, hc, hia, hth1],
          by simp [associateTagsWithThread, hempty, hc, hia, hnt1],
          by simp only [associateTagsWithThread, hempty, hc, hia, Bool.false_eq_true,
               if_false, if_true]
             exact hmem⟩
      | false =>
        exact ⟨by simp [associateTagsWithThread, hempty, hc, hia, hth1],
          by simp [associateTagsWithThread, hempty, hc, hia, hnt1],
          by simp only [associateTagsWithThread, hempty, hc, hia, Bool.false_eq_true,
               if_false]
             exact hmem⟩

theorem syncTags_effects (env : Env) (member : Member) (md : Metadata) (tid : Nat)
    (s : Store) :
    (syncTags env member md tid s).2.1.threads = s.threads ∧
    (syncTags env member md tid s).2.1.nextThreadId = s.nextThreadId ∧
    (∀ o ∈ (syncTags env member md tid s).2.2, o.isThreadInsert = false) := by
  cases hm : tagsMatch (expectedTagNames md member)
      (if env.failReadAssocs then [] else s.currentTagNames tid) with
  | true => refine ⟨?_, ?_, ?_⟩ <;> simp [syncTags, hm, Op.isThreadInsert]
  | false =>
    cases hdel : env.failDeleteAssocs with
    | true => refine ⟨?_, ?_, ?_⟩ <;> simp [syncTags, hm, hdel, Op.isThreadInsert]
    | false =>
      cases hempty : (expectedTagNames md member).isEmpty with
      | true =>
        refine ⟨?_, ?_, ?_⟩ <;>
          simp [syncTags, hm, hdel, hempty, Store.deleteAssocsOf, Op.isThreadInsert]
      | false =>
        obtain ⟨hthA, hntA, hopsA⟩ := associate_effects env tid
          (expectedTagNames md member) (s.deleteAssocsOf tid)
        rcases ha : associateTagsWithThread env tid (expectedTagNames md member)
          (s.deleteAssocsOf tid) with ⟨okA, sA, opsA⟩
        rw [ha] at hthA hntA hopsA
        dsimp only at hthA hntA hopsA
        refine ⟨?_, ?_, ?_⟩
        · simp only [syncTags, hm, hdel, hempty, ha, Bool.false_eq_true, if_false]
          simpa [Store.deleteAssocsOf] using hthA
        · simp only [syncTags, hm, hdel, hempty, ha, Bool.false_eq_true, if_false]
          simpa [Store.deleteAssocsOf] using hntA
        · simp only [syncTags, hm, hdel, hempty, ha, Bool.false_eq_true, if_false]
          intro o ho
          rcases List.mem_append.mp ho with h | h
          · simp only [List.mem_cons, List.not_mem_nil, or_false] at h
            rcases h with h | h <;> (subst h; rfl)
          · exact hopsA o h

/-! ### Preservation of the uniqueness invariant -/

theorem UniqueYid_congr {s1 s2 : Store} (h : s2.threads = s1.threads)
    (hu : UniqueYid s1) : UniqueYid s2 := by
  intro a ha b hb he
  rw [h] at ha hb
  exact hu a ha b hb he

theorem UniqueYid_map {s s2 : Store} (f : Thread → Thread)
    (h : s2.threads = s.threads.map f)
    (hid : ∀ t, (f t).id = t.id) (hyid : ∀ t, (f t).youtube_id = t.youtube_id)
    (hu : UniqueYid s) : UniqueYid s2 := by
  intro a ha b hb he
  rw [h] at ha hb
  rcases List.mem_map.mp ha with ⟨a0, ha0, hea⟩
  rcases List.mem_map.mp hb with ⟨b0, hb0, heb⟩
  subst hea
  subst heb
  rw [hid, hid]
  rw [hyid, hyid] at he
  exact hu a0 ha0 b0 hb0 he

theorem UniqueYid_filter {s s2 : Store} (p : Thread → Bool)
    (h : s2.threads = s.threads.filter p) (hu : UniqueYid s) : UniqueYid s2 := by
  intro a ha b hb he
  rw [h] at ha hb
  exact hu a (List.mem_of_mem_filter ha) b (List.mem_of_mem_filter hb) he

theorem UniqueYid_append {s s2 : Store} (tNew : Thread)
    (h : s2.threads = s.threads ++ [tNew]) (hu : UniqueYid s)
    (habs : ∀ u ∈ s.threads, u.youtube_id ≠ tNew.youtube_id) : UniqueYid s2 := by
  intro a ha b hb he
  rw [h] at ha hb
  rcases List.mem_append.mp ha with ha1 | ha1 <;> rcases List.mem_append.mp hb with hb1 | hb1
  · exact hu a ha1 b hb1 he
  · simp only [List.mem_cons, List.not_mem_nil, or_false] at hb1
    subst hb1
    exact absurd he (habs a ha1)
  · simp only [List.mem_cons, List.not_mem_nil, or_false] at ha1
    subst ha1
    exact absurd he.symm (habs b hb1)
  · simp only [List.mem_cons, List.not_mem_nil, or_false] at ha1 hb1
    subst ha1
    subst hb1
    rfl

theorem existingPath_unique (env : Env) (member : Member) (md : Metadata)
    (info : ChannelInfo) (tid : Nat) (s : Store) (hu : UniqueYid s) :
    UniqueYid (existingPath env member md info tid s).2.1 ∧
    (∀ o ∈ (existingPath env member md info tid s).2.2, o.isThreadInsert = false) := by
  have hidN : ∀ t : Thread,
      ((fun t => if t.id == tid then { t with name := member.name } else t) t).id = t.id := by
    intro t; by_cases h : t.id = tid <;> simp [h]
  have hyidN : ∀ t : Thread,
      ((fun t => if t.id == tid then { t with name := member.name } else t) t).youtube_id
        = t.youtube_id := by
    intro t; by_cases h : t.id = tid <;> simp [h]
  have hidT : ∀ t : Thread,
      ((fun t => if t.id == tid then { t with youtube_title := info.title } else t) t).id
        = t.id := by
    intro t; by_cases h : t.id = tid <;> simp [h]
  have hyidT : ∀ t : Thread,
      ((fun t => if t.id == tid then { t with youtube_title := info.title } else t)
        t).youtube_id = t.youtube_id := by
    intro t; by_cases h : t.id = tid <;> simp [h]
  rcases hf : (if env.failFetchCurrent then none else s.findThreadById tid) with _ | cur
  · constructor
    · simp only [existingPath, hf]
      exact hu
    · simp [existingPath, hf, Op.isThreadInsert]
  · cases hn : (cur.name != member.name && env.failUpdateName) with
    | true =>
      constructor
      · simp only [existingPath, hf, hn, if_true]
        exact hu
      · simp [existingPath, hf, hn, Op.isThreadInsert]
    | false =>
      cases hb1 : cur.name != member.name with
      | true =>
        have hfn : env.failUpdateName = false := by
          cases hq : env.failUpdateName
          · rfl
          · rw [hb1, hq] at hn
            simp at hn
        have hu1 : UniqueYid (s.updateThreadName tid member.name) :=
          UniqueYid_map _ rfl hidN hyidN hu
        cases ht : (cur.youtube_title != info.title && env.failUpdateTitle) with
        | true =>
          constructor
          · simp only [existingPath, hf, hn, ht, hb1, hfn, Bool.false_eq_true, if_false,
              if_true, Bool.and_false]
            exact hu1
          · simp [existingPath, hf, hn, ht, hb1, hfn, Op.isThreadInsert]
        | false =>
          cases hb2 : cur.youtube_title != info.title with
          | true =>
            have hft : env.failUpdateTitle = false := by
              cases hq : env.failUpdateTitle
              · rfl
              · rw [hb2, hq] at ht
                simp at ht
            have hu2 : UniqueYid ((s.updateThreadName tid member.name).updateThreadTitle
                tid info.title) := UniqueYid_map _ rfl hidT hyidT hu1
            obtain ⟨hth3, _, hops3⟩ := syncTags_effects env member md tid
              ((s.updateThreadName tid member.name).updateThreadTitle tid info.title)
            rcases hs : syncTags env member md tid
                ((s.updateThreadName tid member.name).updateThreadTitle tid info.title)
              with ⟨ok3, s3, ops3⟩
            rw [hs] at hth3 hops3
            dsimp only at hth3 hops3
            constructor
            · simp only [existingPath, hf, hn, ht, hb1, hb2, hfn, hft,
                Bool.false_eq_true, Bool.and_false, if_false, if_true, hs]
              exact UniqueYid_congr hth3 hu2
            · simp only [existingPath, hf, hn, ht, hb1, hb2, hfn, hft,
                Bool.false_eq_true, Bool.and_false, if_false, if_true, hs]
              intro o ho
              rcases List.mem_append.mp ho with h | h
              · rcases List.mem_append.mp h with h | h
                · rcases List.mem_append.mp h with h | h <;>
                    (simp only [List.mem_cons, List.not_mem_nil, or_false] at h;
                      subst h; rfl)
                · simp only [List.mem_cons, List.not_mem_nil, or_false] at h
                  subst h
                  rfl
              · exact hops3 o h
          | false =>
            obtain ⟨hth3, _, hops3⟩ := syncTags_effects env member md tid
              (s.updateThreadName tid member.name)
            rcases hs : syncTags env member md tid (s.updateThreadName tid member.name)
              with ⟨ok3, s3, ops3⟩
            rw [hs] at hth3 hops3
            dsimp only at hth3 hops3
            constructor
            · simp only [existingPath, hf, hn, ht, hb1, hb2, hfn, Bool.false_eq_true,
                Bool.and_false, if_false, if_true, hs]
              exact UniqueYid_congr hth3 hu1
            · simp only [existingPath, hf, hn, ht, hb1, hb2, hfn, Bool.false_eq_true,
                Bool.and_false, if_false, if_true, hs]
              intro o ho
              rcases List.mem_append.mp ho with h | h
              · rcases List.mem_append.mp h with h | h
                · rcases List.mem_append.mp h with h | h
                  · simp only [List.mem_cons, List.not_mem_nil, or_false] at h
                    subst h
                    rfl
                  · simp only [List.mem_cons, List.not_mem_nil, or_false] at h
                    subst h
                    rfl
                · simp at h
              · exact hops3 o h
      | false =>
        cases ht : (cur.youtube_title != info.title && env.failUpdateTitle) with
        | true =>
          constructor
          · simp only [existingPath, hf, hn, ht, hb1, Bool.false_eq_true, if_false,
              if_true]
            exact hu
          · simp [existingPath, hf, hn, ht, hb1, Op.isThreadInsert]
        | false =>
          cases hb2 : cur.youtube_title != info.title with
          | true =>
            have hft : env.failUpdateTitle = false := by
              cases hq : env.failUpdateTitle
              · rfl
              · rw [hb2, hq] at ht
                simp at ht
            have hu2 : UniqueYid (s.updateThreadTitle tid info.title) :=
              UniqueYid_map _ rfl hidT hyidT hu
            obtain ⟨hth3, _, hops3⟩ := syncTags_effects env member md tid
              (s.updateThreadTitle tid info.title)
            rcases hs : syncTags env member md tid (s.updateThreadTitle tid info.title)
              with ⟨ok3, s3, ops3⟩
            rw [hs] at hth3 hops3
            dsimp only at hth3 hops3
            constructor
            · simp only [existingPath, hf, hn, ht, hb1, hb2, hft, Bool.false_eq_true,
                Bool.and_false, if_false, if_true, hs]
              exact UniqueYid_congr hth3 hu2
            · simp only [existingPath, hf, hn, ht, hb1, hb2, hft, Bool.false_eq_true,
                Bool.and_false, if_false, if_true, hs]
              intro o ho
              rcases List.mem_append.mp ho with h | h
              · rcases List.mem_append.mp h with h | h
                · rcases List.mem_append.mp h with h | h
                  · simp only [List.mem_cons, List.not_mem_nil, or_false] at h
                    subst h
                    rfl
                  · simp at h
                · simp only [List.mem_cons, List.not_mem_nil, or_false] at h
                  subst h
                  rfl
              · exact hops3 o h
          | false =>
            obtain ⟨hth3, _, hops3⟩ := syncTags_effects env member md tid s
            rcases hs : syncTags env member md tid s with ⟨ok3, s3, ops3⟩
            rw [hs] at hth3 hops3
            dsimp only at hth3 hops3
            constructor
            · simp only [existingPath, hf, hn, ht, hb1, hb2, Bool.false_eq_true,
                if_false, hs]
              exact UniqueYid_congr hth3 hu
            · simp only [existingPath, hf, hn, ht, hb1, hb2, Bool.false_eq_true,
                if_false, hs]
              intro o ho
              rcases List.mem_append.mp ho with h | h
              · rcases List.mem_append.mp h with h | h
                · rcases List.mem_append.mp h with h | h
                  · simp only [List.mem_cons, List.not_mem_nil, or_false] at h
                    subst h
                    rfl
                  · simp at h
                · simp at h
              · exact hops3 o h

theorem creationPath_unique (env : Env) (member : Member) (md : Metadata)
    (info : ChannelInfo) (s : Store) (hu : UniqueYid s)
    (habs : ∀ u ∈ s.threads, u.youtube_id ≠ info.channelId) :
    UniqueYid (creationPath env member md info s).2.1 ∧
    (∀ o ∈ (creationPath env member md info s).2.2,
      o.isThreadInsert = true → o = Op.insertThread info.channelId) := by
  cases hdl : env.downloadOk info.thumbnailUrl with
  | false =>
    constructor
    · simp only [creationPath, hdl, Bool.not_false, if_true]
      exact hu
    · simp [creationPath, hdl, Op.isThreadInsert]
  | true =>
    cases hins : env.failInsertThread with
    | true =>
      constructor
      · simp only [creationPath, hdl, hins, Bool.not_true, Bool.false_eq_true, if_false,
          if_true]
        exact hu
      · simp only [creationPath, hdl, hins, Bool.not_true, Bool.false_eq_true, if_false,
          if_true]
        intro o ho h
        simp only [List.mem_cons, List.not_mem_nil, or_false] at ho
        rcases ho with rfl | rfl
        · simp [Op.isThreadInsert] at h
        · rfl
    | false =>
      have hu1 : UniqueYid ({ s with
          threads := s.threads
            ++ [⟨s.nextThreadId, member.name, info.channelId, info.title, ""⟩],
          nextThreadId := s.nextThreadId + 1 } : Store) :=
        UniqueYid_append _ rfl hu (by intro u hup; exact habs u hup)
      cases hupl : env.uploadFail with
      | true =>
        cases hdelf : env.failDeleteThread with
        | true =>
          constructor
          · simp only [creationPath, hdl, hins, hupl, hdelf, Bool.not_true,
              Bool.false_eq_true, if_false, if_true]
            exact hu1
          · simp only [creationPath, hdl, hins, hupl, hdelf, Bool.not_true,
              Bool.false_eq_true, if_false, if_true]
            intro o ho h
            simp only [List.cons_append, List.nil_append, List.mem_cons,
              List.not_mem_nil, or_false] at ho
            rcases ho with rfl | rfl | rfl | rfl
            · simp [Op.isThreadInsert] at h
            · rfl
            · simp [Op.isThreadInsert] at h
            · simp [Op.isThreadInsert] at h
        | false =>
          have hu2 : UniqueYid (({ s with
              threads := s.threads
                ++ [⟨s.nextThreadId, member.name, info.channelId, info.title, ""⟩],
              nextThreadId := s.nextThreadId + 1 } : Store).deleteThreadById
                s.nextThreadId) :=
            UniqueYid_filter _ rfl hu1
          constructor
          · simp only [creationPath, hdl, hins, hupl, hdelf, Bool.not_true,
              Bool.false_eq_true, if_false, if_true]
            exact hu2
          · simp only [creationPath, hdl, hins, hupl, hdelf, Bool.not_true,
              Bool.false_eq_true, if_false, if_true]
            intro o ho h
            simp only [List.cons_append, List.nil_append, List.mem_cons,
              List.not_mem_nil, or_false] at ho
            rcases ho with rfl | rfl | rfl | rfl
            · simp [Op.isThreadInsert] at h
            · rfl
            · simp [Op.isThreadInsert] at h
            · simp [Op.isThreadInsert] at h
      | false =>
        have hu2 : UniqueYid ({ s with
            threads := s.threads
              ++ [⟨s.nextThreadId, member.name, info.channelId, info.title, ""⟩],
            nextThreadId := s.nextThreadId + 1,
            uploads := s.uploads ++ [toString s.nextThreadId ++ "/avatar/"
              ++ toString env.now ++ ".jpg"] } : Store) := UniqueYid_congr rfl hu1
        cases hav : env.failUpdateAvatar with
        | true =>
          constructor
          · simp only [creationPath, hdl, hins, hupl, hav, Bool.not_true,
              Bool.false_eq_true, if_false, if_true]
            exact hu2
          · simp only [creationPath, hdl, hins, hupl, hav, Bool.not_true,
              Bool.false_eq_true, if_false, if_true]
            intro o ho h
            simp only [List.cons_append, List.nil_append, List.mem_cons,
              List.not_mem_nil, or_false] at ho
            rcases ho with rfl | rfl | rfl | rfl
            · simp [Op.isThreadInsert] at h
            · rfl
            · simp [Op.isThreadInsert] at h
            · simp [Op.isThreadInsert] at h
        | false =>
          have hu3 : UniqueYid (({ s with
              threads := s.threads
                ++ [⟨s.nextThreadId, member.name, info.channelId, info.title, ""⟩],
              nextThreadId := s.nextThreadId + 1,
              uploads := s.uploads ++ [toString s.nextThreadId ++ "/avatar/"
                ++ toString env.now ++ ".jpg"] } : Store).updateThreadAvatar
                s.nextThreadId (toString s.nextThreadId ++ "/avatar/"
                  ++ toString env.now ++ ".jpg")) := by
            refine UniqueYid_map _ rfl ?_ ?_ hu2
            · intro t; by_cases h : t.id = s.nextThreadId <;> simp [h]
            · intro t; by_cases h : t.id = s.nextThreadId <;> simp [h]
          cases hemp : (expectedTagNames md member).isEmpty with
          | true =>
            constructor
            · simp only [creationPath, hdl, hins, hupl, hav, hemp, Bool.not_true,
                Bool.false_eq_true, if_false, if_true]
              exact hu3
            · simp only [creationPath, hdl, hins, hupl, hav, hemp, Bool.not_true,
                Bool.false_eq_true, if_false, if_true]
              intro o ho h
              simp only [List.cons_append, List.nil_append, List.mem_cons,
              List.not_mem_nil, or_false] at ho
              rcases ho with rfl | rfl | rfl | rfl
              · simp [Op.isThreadInsert] at h
              · rfl
              · simp [Op.isThreadInsert] at h
              · simp [Op.isThreadInsert] at h
          | false =>
            rcases ha : associateTagsWithThread env s.nextThreadId
                (expectedTagNames md member)
                (({ s with
                  threads := s.threads
                    ++ [⟨s.nextThreadId, member.name, info.channelId, info.title, ""⟩],
                  nextThreadId := s.nextThreadId + 1,
                  uploads := s.uploads ++ [toString s.nextThreadId ++ "/avatar/"
                    ++ toString env.now ++ ".jpg"] } : Store).updateThreadAvatar
                    s.nextThreadId (toString s.nextThreadId ++ "/avatar/"
                      ++ toString env.now ++ ".jpg")) with ⟨okA, s4, ops4⟩
            have heff := associate_effects env s.nextThreadId
              (expectedTagNames md member)
              (({ s with
                threads := s.threads
                  ++ [⟨s.nextThreadId, member.name, info.channelId, info.title, ""⟩],
                nextThreadId := s.nextThreadId + 1,
                uploads := s.uploads ++ [toString s.nextThreadId ++ "/avatar/"
                  ++ toString env.now ++ ".jpg"] } : Store).updateThreadAvatar
                  s.nextThreadId (toString s.nextThreadId ++ "/avatar/"
                    ++ toString env.now ++ ".jpg"))
            rw [ha] at heff
            obtain ⟨hthA, _, hopsA⟩ := heff
            dsimp only at hthA hopsA
            constructor
            · simp only [creationPath, hdl, hins, hupl, hav, hemp, Bool.not_true,
                Bool.false_eq_true, if_false, if_true, ha]
              exact UniqueYid_congr hthA hu3
            · simp only [creationPath, hdl, hins, hupl, hav, hemp, Bool.not_true,
                Bool.false_eq_true, if_false, if_true, ha]
              intro o ho h
              simp only [List.cons_append, List.nil_append, List.mem_cons] at ho
              rcases ho with rfl | rfl | rfl | rfl | ho
              · simp [Op.isThreadInsert] at h
              · rfl
              · simp [Op.isThreadInsert] at h
              · simp [Op.isThreadInsert] at h
              · rw [hopsA o ho] at h
                simp at h

/-! ### C1: at most one entity per external id -/

/-- Claim C1, counterexample to the unqualified claim: starting from a
store that satisfies the at-most-one-row-per-`youtube_id` invariant and
already holds the entity for `UCx`, a run in which the existence probe's
read fails discards the error, treats the entity as absent, and inserts a
second row for `UCx` — the resulting store violates the invariant, so the
claim does not hold for every run. -/
theorem createThread_unique_cex :
    UniqueYid storeC7 ∧
    ¬ UniqueYid (createThread envProbeFail memX mdNone storeC7).2.1 := by
  constructor
  · show ∀ t1 ∈ storeC7.threads, ∀ t2 ∈ storeC7.threads,
      t1.youtube_id = t2.youtube_id → t1.id = t2.id
    decide
  · show ¬ ∀ t1 ∈ (createThread envProbeFail memX mdNone storeC7).2.1.threads,
      ∀ t2 ∈ (createThread envProbeFail memX mdNone storeC7).2.1.threads,
      t1.youtube_id = t2.youtube_id → t1.id = t2.id
    decide

/-- Claim C1 (amended): when the existence probe's read succeeds,
`createThread` preserves the invariant that at most one thread row exists
per `youtube_id`; moreover any thread insert it issues carries the
*canonical* channel id resolved from the metadata API (not the raw
authored id), is issued only when the probe by that canonical id found no
existing entity, and the probe itself appears in the trace.  (When the
probe's read fails the error is discarded, the entity is treated as
absent, and a duplicate row can be inserted, as the counterexample
shows.) -/
theorem createThread_unique (env : Env) (member : Member) (md : Metadata) (s : Store)
    (hprobe : env.failLookupExisting = false) (hu : UniqueYid s) :
    UniqueYid (createThread env member md s).2.1 ∧
    (∀ yid, Op.insertThread yid ∈ (createThread env member md s).2.2 →
      ∃ info, getChannelInfo env member.youtube_id = some info ∧ yid = info.channelId ∧
        s.findThreadByYid info.channelId = none ∧
        Op.readThreadByYid info.channelId ∈ (createThread env member md s).2.2) := by
  cases hne : member.youtube_id == "" with
  | true =>
    constructor
    · simp only [createThread, hne, if_true]
      exact hu
    · simp [createThread, hne]
  | false =>
    rcases hres : getChannelInfo env member.youtube_id with _ | info
    · constructor
      · simp only [createThread, hne, hres, Bool.false_eq_true, if_false]
        exact hu
      · simp [createThread, hne, hres]
    · rcases hfound : s.findThreadByYid info.channelId with _ | t0
      · have habs : ∀ u ∈ s.threads, u.youtube_id ≠ info.channelId := by
          intro u hup he
          have hnp := List.find?_eq_none.mp hfound u hup
          simp [he] at hnp
        obtain ⟨hcu, hcops⟩ := creationPath_unique env member md info s hu habs
        rcases hcp : creationPath env member md info s with ⟨okC, sC, opsC⟩
        rw [hcp] at hcu hcops
        dsimp only at hcu hcops
        constructor
        · simp only [createThread, hne, hres, hprobe, hfound, hcp, Bool.false_eq_true,
            if_false]
          exact hcu
        · simp only [createThread, hne, hres, hprobe, hfound, hcp, Bool.false_eq_true,
            if_false]
          intro yid hmem
          simp only [List.cons_append, List.nil_append, List.mem_cons] at hmem
          rcases hmem with h | h | h
          · simp at h
          · simp at h
          · have heq := hcops _ h rfl
            have hy : yid = info.channelId := by
              simpa using heq
            exact ⟨info, rfl, hy, hfound, by simp⟩
      · obtain ⟨heu, heops⟩ := existingPath_unique env member md info t0.id s hu
        rcases hep : existingPath env member md info t0.id s with ⟨okE, sE, opsE⟩
        rw [hep] at heu heops
        dsimp only at heu heops
        constructor
        · simp only [createThread, hne, hres, hprobe, hfound, hep, Bool.false_eq_true,
            if_false]
          exact heu
        · simp only [createThread, hne, hres, hprobe, hfound, hep, Bool.false_eq_true,
            if_false]
          intro yid hmem
          simp only [List.cons_append, List.nil_append, List.mem_cons] at hmem
          rcases hmem with h | h | h
          · simp at h
          · simp at h
          · have hfalse := heops _ h
            simp [Op.isThreadInsert] at hfalse

/-- Witness for `createThread_unique` at a concrete fresh creation. -/
theorem createThread_unique_witness :
    UniqueYid (createThread envFoo memFoo mdVG emptyStore).2.1 :=
  (createThread_unique envFoo memFoo mdVG emptyStore (by decide)
    (by intro t1 h1; exact absurd h1 (by simp [emptyStore]))).1

/-! ### The creation path under a fault-free store -/

theorem WF_updateThreadAvatar (s : Store) (tid : Nat) (p : String) (hwf : s.WF) :
    (s.updateThreadAvatar tid p).WF :=
  WF_map_threads s _ (by intro t; by_cases h : t.id = tid <;> simp [h]) hwf

theorem findThreadByYid_updateAvatar (s : Store) (tid : Nat) (p : String) (y : String) :
    (s.updateThreadAvatar tid p).findThreadByYid y
      = (s.findThreadByYid y).map
        (fun t => if t.id == tid then { t with avatar_path := p } else t) :=
  findThreadByYid_map s _ (by intro t; by_cases h : t.id = tid <;> simp [h]) y

theorem findThreadById_updateAvatar (s : Store) (tid : Nat) (p : String) (x : Nat) :
    (s.updateThreadAvatar tid p).findThreadById x
      = (s.findThreadById x).map
        (fun t => if t.id == tid then { t with avatar_path := p } else t) :=
  findThreadById_map s _ (by intro t; by_cases h : t.id = tid <;> simp [h]) x

theorem tagsMatch_eq_true_iff (e c : List String) :
    tagsMatch e c = true ↔ e.length = c.length ∧ ∀ x ∈ e, x ∈ c := by
  simp [tagsMatch, List.all_eq_true]

theorem creationPath_noFaults (env : Env) (member : Member) (md : Metadata)
    (info : ChannelInfo) (s : Store)
    (hnf : env.NoFaults) (hwf : s.WF)
    (habs : s.findThreadByYid info.channelId = none)
    (hdl : env.downloadOk info.thumbnailUrl = true) :
    ∃ s2 ops t1, creationPath env member md info s = (true, s2, ops) ∧
      s2.WF ∧
      s2.findThreadByYid info.channelId = some t1 ∧
      s2.findThreadById t1.id = some t1 ∧
      t1.name = member.name ∧ t1.youtube_title = info.title ∧
      s2.currentTagNames t1.id = expectedTagNames md member := by
  have hWF1 : ({ s with
      threads := s.threads
        ++ [⟨s.nextThreadId, member.name, info.channelId, info.title, ""⟩],
      nextThreadId := s.nextThreadId + 1 } : Store).WF := by
    constructor
    · intro t ht
      dsimp only at ht ⊢
      rcases List.mem_append.mp ht with h1 | h1
      · have := hwf.threadIdLt t h1
        omega
      · simp only [List.mem_cons, List.not_mem_nil, or_false] at h1
        subst h1
        dsimp only
        omega
    · exact hwf.tagIdLt
    · dsimp only
      rw [List.map_append]
      apply List.Nodup.append hwf.threadIdNodup (by simp)
      intro a ha hb
      simp at hb
      subst hb
      rcases List.mem_map.mp ha with ⟨u, hu, he⟩
      have := hwf.threadIdLt u hu
      omega
    · exact hwf.tagIdNodup
    · intro q hq
      dsimp only at hq ⊢
      have := hwf.assocThreadLt q hq
      omega
    · exact hwf.assocTagLt
  have hWF2 : ({ s with
      threads := s.threads
        ++ [⟨s.nextThreadId, member.name, info.channelId, info.title, ""⟩],
      nextThreadId := s.nextThreadId + 1,
      uploads := s.uploads ++ [toString s.nextThreadId ++ "/avatar/"
        ++ toString env.now ++ ".jpg"] } : Store).WF :=
    ⟨hWF1.threadIdLt, hWF1.tagIdLt, hWF1.threadIdNodup, hWF1.tagIdNodup,
      hWF1.assocThreadLt, hWF1.assocTagLt⟩
  have hWF3 : (({ s with
      threads := s.threads
        ++ [⟨s.nextThreadId, member.name, info.channelId, info.title, ""⟩],
      nextThreadId := s.nextThreadId + 1,
      uploads := s.uploads ++ [toString s.nextThreadId ++ "/avatar/"
        ++ toString env.now ++ ".jpg"] } : Store).updateThreadAvatar s.nextThreadId
        (toString s.nextThreadId ++ "/avatar/" ++ toString env.now ++ ".jpg")).WF :=
    WF_updateThreadAvatar _ _ _ hWF2
  have habs' : s.threads.find? (fun t => t.youtube_id == info.channelId) = none := habs
  have hidnone : s.threads.find? (fun t => t.id == s.nextThreadId) = none :=
    find?_key_ne (k := Thread.id)
      (by intro x hx; have := hwf.threadIdLt x hx; omega)
  have hfy3 : (({ s with
      threads := s.threads
        ++ [⟨s.nextThreadId, member.name, info.channelId, info.title, ""⟩],
      nextThreadId := s.nextThreadId + 1,
      uploads := s.uploads ++ [toString s.nextThreadId ++ "/avatar/"
        ++ toString env.now ++ ".jpg"] } : Store).updateThreadAvatar s.nextThreadId
        (toString s.nextThreadId ++ "/avatar/" ++ toString env.now
          ++ ".jpg")).findThreadByYid info.channelId
      = some ⟨s.nextThreadId, member.name, info.channelId, info.title,
          toString s.nextThreadId ++ "/avatar/" ++ toString env.now ++ ".jpg"⟩ := by
    rw [findThreadByYid_updateAvatar]
    have hfy1 : ({ s with
        threads := s.threads
          ++ [⟨s.nextThreadId, member.name, info.channelId, info.title, ""⟩],
        nextThreadId := s.nextThreadId + 1,
        uploads := s.uploads ++ [toString s.nextThreadId ++ "/avatar/"
          ++ toString env.now ++ ".jpg"] } : Store).findThreadByYid info.channelId
        = some ⟨s.nextThreadId, member.name, info.channelId, info.title, ""⟩ := by
      simp only [Store.findThreadByYid]
      rw [List.find?_append, habs']
      simp
    rw [hfy1]
    simp
  have hfi3 : (({ s with
      threads := s.threads
        ++ [⟨s.nextThreadId, member.name, info.channelId, info.title, ""⟩],
      nextThreadId := s.nextThreadId + 1,
      uploads := s.uploads ++ [toString s.nextThreadId ++ "/avatar/"
        ++ toString env.now ++ ".jpg"] } : Store).updateThreadAvatar s.nextThreadId
        (toString s.nextThreadId ++ "/avatar/" ++ toString env.now
          ++ ".jpg")).findThreadById s.nextThreadId
      = some ⟨s.nextThreadId, member.name, info.channelId, info.title,
          toString s.nextThreadId ++ "/avatar/" ++ toString env.now ++ ".jpg"⟩ := by
    rw [findThreadById_updateAvatar]
    have hfi1 : ({ s with
        threads := s.threads
          ++ [⟨s.nextThreadId, member.name, info.channelId, info.title, ""⟩],
        nextThreadId := s.nextThreadId + 1,
        uploads := s.uploads ++ [toString s.nextThreadId ++ "/avatar/"
          ++ toString env.now ++ ".jpg"] } : Store).findThreadById s.nextThreadId
        = some ⟨s.nextThreadId, member.name, info.channelId, info.title, ""⟩ := by
      simp only [Store.findThreadById]
      rw [List.find?_append, hidnone]
      simp
    rw [hfi1]
    simp
  have hcur3 : (({ s with
      threads := s.threads
        ++ [⟨s.nextThreadId, member.name, info.channelId, info.title, ""⟩],
      nextThreadId := s.nextThreadId + 1,
      uploads := s.uploads ++ [toString s.nextThreadId ++ "/avatar/"
        ++ toString env.now ++ ".jpg"] } : Store).updateThreadAvatar s.nextThreadId
        (toString s.nextThreadId ++ "/avatar/" ++ toString env.now
          ++ ".jpg")).currentTagNames s.nextThreadId = [] := by
    have hfilter : s.threadTags.filter (fun q => q.1 == s.nextThreadId) = [] := by
      apply List.filter_eq_nil_iff.mpr
      intro q hq
      have := hwf.assocThreadLt q hq
      simp only [beq_iff_eq]
      omega
    simp only [Store.currentTagNames, Store.updateThreadAvatar]
    rw [show ({ s with
        threads := s.threads
          ++ [⟨s.nextThreadId, member.name, info.channelId, info.title, ""⟩],
        nextThreadId := s.nextThreadId + 1,
        uploads := s.uploads ++ [toString s.nextThreadId ++ "/avatar/"
          ++ toString env.now ++ ".jpg"] } : Store).threadTags = s.threadTags from rfl]
    rw [hfilter]
    rfl
  cases hexp : expectedTagNames md member with
  | nil =>
    refine ⟨_, [Op.download info.thumbnailUrl, Op.insertThread info.channelId,
      Op.upload (toString s.nextThreadId ++ "/avatar/" ++ toString env.now ++ ".jpg"),
      Op.updateThread s.nextThreadId],
      ⟨s.nextThreadId, member.name, info.channelId, info.title,
        toString s.nextThreadId ++ "/avatar/" ++ toString env.now ++ ".jpg"⟩, ?_, hWF3,
      hfy3, hfi3, rfl, rfl, by rw [hcur3]⟩
    simp [creationPath, hdl, hnf.insThreadOk, hnf.uploadOk, hnf.updAvatarOk, hexp]
  | cons a rest =>
    obtain ⟨s4, ops4, heqA, hthA, hupA, hntA, hwfA, hcurA⟩ :=
      associate_noFaults env s.nextThreadId (a :: rest)
        (({ s with
          threads := s.threads
            ++ [⟨s.nextThreadId, member.name, info.channelId, info.title, ""⟩],
          nextThreadId := s.nextThreadId + 1,
          uploads := s.uploads ++ [toString s.nextThreadId ++ "/avatar/"
            ++ toString env.now ++ ".jpg"] } : Store).updateThreadAvatar s.nextThreadId
            (toString s.nextThreadId ++ "/avatar/" ++ toString env.now ++ ".jpg"))
        hnf hWF3 (Nat.lt_succ_self s.nextThreadId)
    refine ⟨s4, [Op.download info.thumbnailUrl, Op.insertThread info.channelId,
      Op.upload (toString s.nextThreadId ++ "/avatar/" ++ toString env.now ++ ".jpg"),
      Op.updateThread s.nextThreadId] ++ ops4,
      ⟨s.nextThreadId, member.name, info.channelId, info.title,
        toString s.nextThreadId ++ "/avatar/" ++ toString env.now ++ ".jpg"⟩, ?_, hwfA,
      ?_, ?_, rfl, rfl, ?_⟩
    · simp [creationPath, hdl, hnf.insThreadOk, hnf.uploadOk, hnf.updAvatarOk, hexp,
        heqA]
    · rw [findThreadByYid_congr _ s4 hthA]
      exact hfy3
    · rw [findThreadById_congr _ s4 hthA]
      exact hfi3
    · rw [hcurA, hcur3]
      rfl

/-- When the entity already matches the record (name, title, tag set as the
code tests it), `createThread` issues only the four reads and changes
nothing. -/
theorem createThread_skip (env : Env) (member : Member) (md : Metadata)
    (info : ChannelInfo) (t1 : Thread) (s1 : Store)
    (hnf : env.NoFaults)
    (hne : (member.youtube_id == "") = false)
    (hres : getChannelInfo env member.youtube_id = some info)
    (hfound : s1.findThreadByYid info.channelId = some t1)
    (hfid : s1.findThreadById t1.id = some t1)
    (hname : t1.name = member.name)
    (htitle : t1.youtube_title = info.title)
    (htags : tagsMatch (expectedTagNames md member) (s1.currentTagNames t1.id) = true) :
    createThread env member md s1 = (true, s1,
      [Op.apiResolve member.youtube_id, Op.readThreadByYid info.channelId,
        Op.readThreadById t1.id, Op.readAssocs t1.id]) := by
  simp [createThread, hne, hres, hnf.lookupOk, hfound, existingPath, hnf.fetchOk, hfid,
    hname, htitle, syncTags, hnf.readAssocsOk, htags]

/-! ### C2: a second run on the converged store issues only reads -/

/-- Claim C2: reconciliation is idempotent — when a run of `createThread`
succeeds, running it again against the store it produced succeeds, leaves
the store unchanged, and issues zero insert, update, or delete calls (its
trace holds only reads). -/
theorem createThread_idempotent (env : Env) (member : Member) (md : Metadata) (s : Store)
    (hnf : env.NoFaults) (hwf : s.WF)
    (h1 : (createThread env member md s).1 = true) :
    (createThread env member md (createThread env member md s).2.1).1 = true ∧
    (createThread env member md (createThread env member md s).2.1).2.1
      = (createThread env member md s).2.1 ∧
    ((createThread env member md (createThread env member md s).2.1).2.2.filter
      Op.isMutation) = [] := by
  cases hne : member.youtube_id == "" with
  | true =>
    have hct : createThread env member md s = (true, s, []) := by
      simp [createThread, hne]
    simp [hct, Op.isMutation]
  | false =>
    rcases hres : getChannelInfo env member.youtube_id with _ | info
    · exfalso
      simp [createThread, hne, hres] at h1
    · rcases hfound : s.findThreadByYid info.channelId with _ | t0
      · cases hdl : env.downloadOk info.thumbnailUrl with
        | false =>
          exfalso
          simp [createThread, hne, hres, hnf.lookupOk, hfound, creationPath, hdl] at h1
        | true =>
          obtain ⟨s2, ops, t1, heqC, hwf2, hfy, hfi, hnm, hti, hcur⟩ :=
            creationPath_noFaults env member md info s hnf hwf hfound hdl
          have hct : createThread env member md s = (true, s2,
              [Op.apiResolve member.youtube_id, Op.readThreadByYid info.channelId]
                ++ ops) := by
            simp [createThread, hne, hres, hnf.lookupOk, hfound, heqC]
          have htags : tagsMatch (expectedTagNames md member)
              (s2.currentTagNames t1.id) = true := by
            rw [hcur]
            exact tagsMatch_refl _
          have hskip := createThread_skip env member md info t1 s2 hnf hne hres hfy hfi
            hnm hti htags
          rw [hct]
          dsimp only
          rw [hskip]
          exact ⟨rfl, rfl, rfl⟩
      · have ht0mem : t0 ∈ s.threads := List.mem_of_find?_eq_some hfound
        obtain ⟨s2, ops, heqE, hwf2, hup2, hnt2, hfindY, hfindI, htags2, hdisj, hops⟩ :=
          existingPath_noFaults env member md info t0 s hnf hwf ht0mem
        have hct : createThread env member md s = (true, s2,
            [Op.apiResolve member.youtube_id, Op.readThreadByYid info.channelId]
              ++ ops) := by
          simp [createThread, hne, hres, hnf.lookupOk, hfound, heqE]
        have hfy2 : s2.findThreadByYid info.channelId
            = some { t0 with name := member.name, youtube_title := info.title } := by
          rw [hfindY info.channelId, hfound]
          simp
        have hskip := createThread_skip env member md info
          { t0 with name := member.name, youtube_title := info.title } s2 hnf hne hres
          hfy2 hfindI rfl rfl htags2
        rw [hct]
        dsimp only
        rw [hskip]
        exact ⟨rfl, rfl, rfl⟩

/-- Witness for `createThread_idempotent` at a concrete fresh creation. -/
theorem createThread_idempotent_witness :
    (createThread envFoo memFoo mdVG
      (createThread envFoo memFoo mdVG emptyStore).2.1).1 = true ∧
    (createThread envFoo memFoo mdVG
      (createThread envFoo memFoo mdVG emptyStore).2.1).2.1
      = (createThread envFoo memFoo mdVG emptyStore).2.1 ∧
    ((createThread envFoo memFoo mdVG
      (createThread envFoo memFoo mdVG emptyStore).2.1).2.2.filter Op.isMutation)
      = [] :=
  createThread_idempotent envFoo memFoo mdVG emptyStore
    ⟨rfl, rfl, rfl, rfl, rfl, rfl, fun _ => rfl, fun _ => rfl, rfl, rfl, rfl, rfl, rfl⟩
    (by constructor <;> decide) (by decide)

/-! ### C3: tag convergence -/

/-- Claim C3 (amended): for an existing entity whose reconciliation runs to
completion with every store call succeeding, *provided the desired tag-name
list has no duplicates*, the final association set equals exactly the
desired set built from job, group and option tags, regardless of what
extraneous associations the entity had before the run.  (With a duplicated
desired name the skip test can accept a non-matching set and extraneous
associations survive — see the counterexample.) -/
theorem tag_convergence (env : Env) (member : Member) (md : Metadata)
    (info : ChannelInfo) (t0 : Thread) (s : Store)
    (hnf : env.NoFaults) (hwf : s.WF)
    (hne : (member.youtube_id == "") = false)
    (hres : getChannelInfo env member.youtube_id = some info)
    (hfound : s.findThreadByYid info.channelId = some t0)
    (hnd : (expectedTagNames md member).Nodup) :
    (createThread env member md s).1 = true ∧
    (∀ n, n ∈ (createThread env member md s).2.1.currentTagNames t0.id ↔
      n ∈ expectedTagNames md member) := by
  have ht0mem : t0 ∈ s.threads := List.mem_of_find?_eq_some hfound
  obtain ⟨s2, ops, heqE, hwf2, hup2, hnt2, hfindY, hfindI, htags2, hdisj, hops⟩ :=
    existingPath_noFaults env member md info t0 s hnf hwf ht0mem
  have hct : createThread env member md s = (true, s2,
      [Op.apiResolve member.youtube_id, Op.readThreadByYid info.channelId] ++ ops) := by
    simp [createThread, hne, hres, hnf.lookupOk, hfound, heqE]
  rw [hct]
  refine ⟨rfl, ?_⟩
  dsimp only
  rcases hdisj with ⟨hceq, hm⟩ | hR
  · rw [hceq]
    obtain ⟨hlen, hsub⟩ := (tagsMatch_eq_true_iff _ _).mp hm
    intro n
    exact (mem_iff_of_nodup_inj hnd hlen hsub n).symm
  · rw [hR]
    intro n
    exact Iff.rfl

/-- Claim C3, counterexample: job and group coincide (`"A"`), so the
desired list is `["A", "A"]` and the desired *set* is `{A}`; the entity
carries tags `A` and `B`; the run completes with every call succeeding,
yet the skip test accepts (`2 = 2` and every desired name occurs) and the
extraneous tag `B` survives — the final association set is not the desired
set. -/
theorem tag_convergence_cex :
    (storeC3.findThreadByYid "UCx").isSome = true ∧
    (createThread envX memX mdDup storeC3).1 = true ∧
    (createThread envX memX mdDup storeC3).2.1.currentTagNames 0 = ["A", "B"] ∧
    expectedTagNames mdDup memX = ["A", "A"] ∧
    "B" ∈ (createThread envX memX mdDup storeC3).2.1.currentTagNames 0 ∧
    "B" ∉ expectedTagNames mdDup memX := by
  refine ⟨by decide, by decide, by decide, by decide, by decide, by decide⟩

/-- Witness for `tag_convergence` at a concrete duplicate-free tag list. -/
theorem tag_convergence_witness :
    (createThread envX memX mdVG storeC3).1 = true ∧
    ("VTuber" ∈ (createThread envX memX mdVG storeC3).2.1.currentTagNames 0 ↔
      "VTuber" ∈ expectedTagNames mdVG memX) := by
  have h := tag_convergence envX memX mdVG ⟨"UCx", "T", "u"⟩
    ⟨0, "N", "UCx", "T", "av"⟩ storeC3
    ⟨rfl, rfl, rfl, rfl, rfl, rfl, fun _ => rfl, fun _ => rfl, rfl, rfl, rfl, rfl, rfl⟩
    (by constructor <;> decide) (by decide) (by decide) (by decide) (by decide)
  exact ⟨h.1, h.2 "VTuber"⟩

/-! ### C5: the skip test is length-plus-membership, not set equality -/

/-- Claim C5 (amended): for an existing entity under a fault-free store,
the run skips every association write exactly when the source's test holds
— the desired list and the current list have equal lengths and every
desired name occurs in the current list.  That test coincides with
set equality when both lists are duplicate-free, but not in general. -/
theorem tag_skip_condition (env : Env) (member : Member) (md : Metadata)
    (info : ChannelInfo) (t0 : Thread) (s : Store)
    (hnf : env.NoFaults) (hwf : s.WF)
    (hne : (member.youtube_id == "") = false)
    (hres : getChannelInfo env member.youtube_id = some info)
    (hfound : s.findThreadByYid info.channelId = some t0) :
    (((createThread env member md s).2.2.any Op.isAssocWrite) = false ↔
      tagsMatch (expectedTagNames md member) (s.currentTagNames t0.id) = true) ∧
    (∀ e c : List String, e.Nodup → c.Nodup →
      (tagsMatch e c = true ↔ ∀ n, n ∈ e ↔ n ∈ c)) := by
  constructor
  · have ht0mem : t0 ∈ s.threads := List.mem_of_find?_eq_some hfound
    obtain ⟨s2, ops, heqE, hwf2, hup2, hnt2, hfindY, hfindI, htags2, hdisj, hops⟩ :=
      existingPath_noFaults env member md info t0 s hnf hwf ht0mem
    have hct : createThread env member md s = (true, s2,
        [Op.apiResolve member.youtube_id, Op.readThreadByYid info.channelId]
          ++ ops) := by
      simp [createThread, hne, hres, hnf.lookupOk, hfound, heqE]
    rw [hct]
    dsimp only
    simp only [List.cons_append, List.nil_append, List.any_cons]
    rw [hops]
    simp [Op.isAssocWrite]
  · intro e c hnde hndc
    constructor
    · intro hm
      obtain ⟨hlen, hsub⟩ := (tagsMatch_eq_true_iff e c).mp hm
      exact mem_iff_of_nodup_inj hnde hlen hsub
    · intro hiff
      apply (tagsMatch_eq_true_iff e c).mpr
      refine ⟨?_, fun x hx => (hiff x).mp hx⟩
      rw [← List.toFinset_card_of_nodup hnde, ← List.toFinset_card_of_nodup hndc]
      congr 1
      apply Finset.ext
      intro a
      simpa using hiff a

/-- Claim C5, counterexample: the desired list `["A"]` and the current list
`["A", "A"]` are equal as sets, yet the run issues association writes (the
rebuild fires because the lengths differ) — the skip test is not set-based
equality. -/
theorem tag_skip_cex :
    (expectedTagNames mdA memX).toFinset = (storeC5.currentTagNames 0).toFinset ∧
    (createThread envX memX mdA storeC5).1 = true ∧
    ((createThread envX memX mdA storeC5).2.2.any Op.isAssocWrite) = true := by
  refine ⟨by decide, by decide, by decide⟩

/-- Witness for `tag_skip_condition` at the concrete fixtures. -/
theorem tag_skip_witness :
    (((createThread envX memX mdVG storeC3).2.2.any Op.isAssocWrite) = false ↔
      tagsMatch (expectedTagNames mdVG memX) (storeC3.currentTagNames 0) = true) := by
  exact (tag_skip_condition envX memX mdVG ⟨"UCx", "T", "u"⟩
    ⟨0, "N", "UCx", "T", "av"⟩ storeC3
    ⟨rfl, rfl, rfl, rfl, rfl, rfl, fun _ => rfl, fun _ => rfl, rfl, rfl, rfl, rfl, rfl⟩
    (by constructor <;> decide) (by decide) (by decide) (by decide)).1

/-! ### C9: get-or-create under the remote-store race -/

/-- Claim C9 (amended): when the `tags` select hits, `getOrCreateTag`
returns the existing row's key; but when the select misses while the row
exists (the remote-store race), the insert fails on the unique name and
`getOrCreateTag` returns an error rather than the existing row's key. -/
theorem getOrCreateTag_race (env : Env) (n : String) (s : Store) (g : Tag)
    (hex : s.findTagByName n = some g) :
    (env.failTagSelect n = false →
      getOrCreateTag env n s = (some g.id, s, [Op.readTagByName n])) ∧
    (env.failTagSelect n = true →
      (getOrCreateTag env n s).1 = none ∧ (getOrCreateTag env n s).2.1 = s) := by
  constructor
  · intro hsel
    simp [getOrCreateTag, hsel, hex]
  · intro hsel
    simp [getOrCreateTag, hsel, hex]

/-- Claim C9, counterexample: the tag row `A` exists and the insert is not
force-failed, yet after a missed select the operation reports an error
(`none`) instead of returning the existing row's key `0`. -/
theorem getOrCreateTag_race_cex :
    storeC9.findTagByName "A" = some ⟨0, "A"⟩ ∧
    envTagRace.failTagInsert "A" = false ∧
    (getOrCreateTag envTagRace "A" storeC9).1 = none ∧
    (getOrCreateTag envTagRace "A" storeC9).2.1 = storeC9 := by
  refine ⟨by decide, by decide, ?_, ?_⟩ <;> decide

/-- Witness for `getOrCreateTag_race` at the concrete fixtures. -/
theorem getOrCreateTag_race_witness :
    getOrCreateTag envX "A" storeC9 = (some 0, storeC9, [Op.readTagByName "A"]) ∧
    (getOrCreateTag envTagRace "A" storeC9).1 = none := by
  exact ⟨(getOrCreateTag_race envX "A" storeC9 ⟨0, "A"⟩ (by decide)).1 (by decide),
    ((getOrCreateTag_race envTagRace "A" storeC9 ⟨0, "A"⟩ (by decide)).2 (by decide)).1⟩

/-! ### C4: rollback on upload failure -/

/-- Claim C4: on the creation path, if the avatar upload fails after the
entity row was inserted, the engine deletes the just-inserted row — the
final `threads` table equals the initial one, so the new row does not
exist — and the record is reported as failed.  The trace shows the insert
and the compensating delete. -/
theorem createThread_rollback (env : Env) (member : Member) (md : Metadata)
    (info : ChannelInfo) (s : Store)
    (hwf : s.WF)
    (hne : (member.youtube_id == "") = false)
    (hres : getChannelInfo env member.youtube_id = some info)
    (hprobe : env.failLookupExisting = false)
    (habs : s.findThreadByYid info.channelId = none)
    (hdl : env.downloadOk info.thumbnailUrl = true)
    (hins : env.failInsertThread = false)
    (hup : env.uploadFail = true)
    (hdel : env.failDeleteThread = false) :
    (createThread env member md s).1 = false ∧
    (createThread env member md s).2.1.threads = s.threads ∧
    Op.insertThread info.channelId ∈ (createThread env member md s).2.2 ∧
    Op.deleteThread s.nextThreadId ∈ (createThread env member md s).2.2 := by
  have hfilter : s.threads.filter (fun t => t.id != s.nextThreadId) = s.threads := by
    apply List.filter_eq_self.mpr
    intro t ht
    have := hwf.threadIdLt t ht
    simp only [bne_iff_ne, ne_eq, decide_eq_true_eq]
    omega
  simp [createThread, creationPath, Store.deleteThreadById, hne, hres, hprobe, habs,
    hdl, hins, hup, hdel, List.filter_append, hfilter]

/-- Witness for `createThread_rollback` at the concrete fixtures. -/
theorem createThread_rollback_witness :
    (createThread envUploadFail memFoo mdVG emptyStore).1 = false ∧
    (createThread envUploadFail memFoo mdVG emptyStore).2.1.threads = emptyStore.threads ∧
    Op.insertThread "UCfoo" ∈ (createThread envUploadFail memFoo mdVG emptyStore).2.2 ∧
    Op.deleteThread emptyStore.nextThreadId ∈
      (createThread envUploadFail memFoo mdVG emptyStore).2.2 := by
  exact createThread_rollback envUploadFail memFoo mdVG ⟨"UCfoo", "T", "u"⟩ emptyStore
    (by constructor <;> decide) (by decide) (by decide) (by decide) (by decide)
    (by decide) (by decide) (by decide) (by decide)

/-! ### C7: remote-store lookup failure -/

/-- Claim C7, counterexample: the entity for `UCx` exists in the store,
the existence probe's read fails, and — contrary to the claim — the record
is *not* reported as failed (the run returns success), the failure *is*
treated as "entity absent", and the creation path runs, inserting a second
row for the same external id. -/
theorem probe_failure_cex :
    storeC7.findThreadByYid "UCx" = some ⟨0, "N", "UCx", "T", "av"⟩ ∧
    (createThread envProbeFail memX mdNone storeC7).1 = true ∧
    Op.insertThread "UCx" ∈ (createThread envProbeFail memX mdNone storeC7).2.2 ∧
    (createThread envProbeFail memX mdNone storeC7).2.1.threads.length = 2 := by
  refine ⟨by decide, by decide, by decide, by decide⟩

/-- Claim C7 (amended): a failure of the *current-row re-read* of the
existing path is fatal for that record — the record is reported failed, no
mutation is issued, and the loop moves to the next record with the failed
counter bumped.  (A failure of the initial existence probe is instead
treated as "entity absent" and triggers the creation path, as
`probe_failure_cex` shows.) -/
theorem lookup_failure_behavior (env : Env) (member : Member) (md : Metadata)
    (info : ChannelInfo) (s : Store) (t0 : Thread)
    (hne : (member.youtube_id == "") = false)
    (hres : getChannelInfo env member.youtube_id = some info)
    (hprobe : env.failLookupExisting = false)
    (hfound : s.findThreadByYid info.channelId = some t0)
    (hfetch : env.failFetchCurrent = true) :
    (createThread env member md s).1 = false ∧
    (createThread env member md s).2.1 = s ∧
    ((createThread env member md s).2.2.filter Op.isMutation) = [] ∧
    (∀ rest r, processMembers env md (some member :: rest) s r =
      processMembers env md rest s { r with failed := r.failed + 1 }) := by
  have hct : createThread env member md s = (false, s,
      [Op.apiResolve member.youtube_id, Op.readThreadByYid info.channelId,
        Op.readThreadById t0.id]) := by
    simp [createThread, existingPath, hne, hres, hprobe, hfound, hfetch]
  refine ⟨by rw [hct], by rw [hct], by rw [hct]; simp [Op.isMutation], ?_⟩
  intro rest r
  simp [processMembers, hct]

/-- Witness for `lookup_failure_behavior` at the concrete fixtures. -/
theorem lookup_failure_witness :
    (createThread envFetchFail memX mdNone storeC7).1 = false ∧
    (createThread envFetchFail memX mdNone storeC7).2.1 = storeC7 ∧
    ((createThread envFetchFail memX mdNone storeC7).2.2.filter Op.isMutation) = [] ∧
    processMembers envFetchFail mdNone [some memX] storeC7 ⟨0, 0, 0, 1⟩ =
      processMembers envFetchFail mdNone [] storeC7 ⟨0, 0, 1, 1⟩ := by
  have h := lookup_failure_behavior envFetchFail memX mdNone ⟨"UCx", "T", "u"⟩ storeC7
    ⟨0, "N", "UCx", "T", "av"⟩ (by decide) (by decide) (by decide) (by decide) (by decide)
  exact ⟨h.1, h.2.1, h.2.2.1, h.2.2.2 [] ⟨0, 0, 0, 1⟩⟩

/-! ### C8: outcome classification of a fresh creation -/

/-- Claim C8, evaluated at the failing input: the store is empty (no
pre-existing entity for `UCabc`), the member is authored by the canonical
`UC` id, every call succeeds and the creation path completes — the final
store holds the new row — yet the record is counted under `skipped`
(the post-run re-query by the raw authored id finds the just-inserted
row), not under the created/success bucket. -/
theorem fresh_creation_counted_skipped :
    emptyStore.findThreadByYid "UCabc" = none ∧
    (processGroup envAbc (some ⟨mdNone, [some memAbc]⟩) emptyStore).1.success = 0 ∧
    (processGroup envAbc (some ⟨mdNone, [some memAbc]⟩) emptyStore).1.skipped = 1 ∧
    (processGroup envAbc (some ⟨mdNone, [some memAbc]⟩) emptyStore).1.failed = 0 ∧
    ((processGroup envAbc (some ⟨mdNone, [some memAbc]⟩) emptyStore).2.findThreadByYid
      "UCabc").isSome = true := by
  refine ⟨by decide, by decide, by decide, by decide, by decide⟩

/-! ### C6: no early abort, exit status as a fold -/

theorem totalFailed_shift (rs : List GroupResult) (a : Nat) :
    rs.foldl (fun acc r => acc + r.failed) a = a + totalFailed rs := by
  induction rs generalizing a with
  | nil => simp [totalFailed]
  | cons r rest ih =>
    simp only [totalFailed, List.foldl_cons] at ih ⊢
    rw [ih (a + r.failed), ih (0 + r.failed)]
    omega

theorem processMembers_cons_some (env : Env) (md : Metadata) (m : Member)
    (rest : List (Option Member)) (s : Store) (r : GroupResult) :
    processMembers env md (some m :: rest) s r =
      (if (createThread env m md s).1 then
        processMembers env md rest (createThread env m md s).2.1
          (postCheckCount env m (createThread env m md s).2.1 r)
      else
        processMembers env md rest (createThread env m md s).2.1
          { r with failed := r.failed + 1 }) := by
  rcases h : createThread env m md s with ⟨ok, s1, tr⟩
  cases ok <;> simp [processMembers, h]

/-- Claim C6: no failure aborts the run early and the exit status is a
pure fold over the per-record outcomes — the exit code is `0` exactly when
the accumulated failure count is `0`, i.e. exactly when no record anywhere
failed; every group contributes a result; and a failed record bumps the
failed counter and processing continues with the next record. -/
theorem run_never_aborts (env : Env) (gds : List (Option GroupData)) (s : Store) :
    (exitCode (runGroups env gds s).1 = 0 ↔ totalFailed (runGroups env gds s).1 = 0) ∧
    (totalFailed (runGroups env gds s).1 = 0 ↔
      ∀ r ∈ (runGroups env gds s).1, r.failed = 0) ∧
    ((runGroups env gds s).1.length = gds.length) ∧
    (∀ md m rest s0 r0, (createThread env m md s0).1 = false →
      processMembers env md (some m :: rest) s0 r0 =
        processMembers env md rest (createThread env m md s0).2.1
          { r0 with failed := r0.failed + 1 }) := by
  refine ⟨?_, ?_, ?_, ?_⟩
  · simp only [exitCode]
    split <;> omega
  · generalize (runGroups env gds s).1 = rs
    induction rs with
    | nil => simp [totalFailed]
    | cons r rest ih =>
      have hshift : totalFailed (r :: rest) = r.failed + totalFailed rest := by
        simp only [totalFailed, List.foldl_cons, Nat.zero_add]
        exact totalFailed_shift rest r.failed
      rw [hshift]
      constructor
      · intro h x hx
        rcases List.mem_cons.mp hx with h1 | h1
        · subst h1; omega
        · exact ih.mp (by omega) x h1
      · intro h
        have h1 := h r (List.mem_cons_self r rest)
        have h2 := ih.mpr (fun x hx => h x (List.mem_cons_of_mem r hx))
        omega
  · induction gds generalizing s with
    | nil => simp [runGroups]
    | cons gd rest ih => simp [runGroups, ih]
  · intro md m rest s0 r0 h
    rw [processMembers_cons_some, h]
    simp

/-- Witness for `run_never_aborts` at a concrete one-failure batch. -/
theorem run_never_aborts_witness :
    (exitCode (runGroups envX gdsBad emptyStore).1 = 0 ↔
      totalFailed (runGroups envX gdsBad emptyStore).1 = 0) ∧
    (runGroups envX gdsBad emptyStore).1.length = gdsBad.length ∧
    processMembers envX mdNone [some memBad] emptyStore ⟨0, 0, 0, 1⟩ =
      processMembers envX mdNone []
        (createThread envX memBad mdNone emptyStore).2.1 ⟨0, 0, 1, 1⟩ := by
  have h := run_never_aborts envX gdsBad emptyStore
  exact ⟨h.1, h.2.2.1, h.2.2.2 mdNone memBad [] emptyStore ⟨0, 0, 0, 1⟩ (by decide)⟩

/-! ### C10: the outcome counters partition the batch -/

theorem postCheckCount_counts (env : Env) (m : Member) (s : Store) (r : GroupResult) :
    ((postCheckCount env m s r).success + (postCheckCount env m s r).skipped
        + (postCheckCount env m s r).failed
      = r.success + r.skipped + r.failed + 1)
    ∧ (postCheckCount env m s r).total = r.total := by
  cases hid : (m.youtube_id == "") with
  | true =>
    constructor <;> simp [postCheckCount, hid] <;> omega
  | false =>
    cases hpf : env.failPostCheck with
    | true =>
      constructor <;> simp [postCheckCount, hid, hpf] <;> omega
    | false =>
      rcases hprobe : s.findThreadByYid m.youtube_id with _ | t <;>
        constructor <;> simp [postCheckCount, hid, hpf, hprobe] <;> omega

theorem processMembers_counts (env : Env) (md : Metadata) :
    ∀ (ms : List (Option Member)) (s : Store) (r : GroupResult),
      ((processMembers env md ms s r).1.success + (processMembers env md ms s r).1.skipped
          + (processMembers env md ms s r).1.failed
        = r.success + r.skipped + r.failed + ms.countP (fun x => x.isSome))
      ∧ (processMembers env md ms s r).1.total = r.total := by
  intro ms
  induction ms with
  | nil => intro s r; simp [processMembers]
  | cons x rest ih =>
    intro s r
    cases x with
    | none =>
      have h := ih s r
      simpa [processMembers, List.countP_cons] using h
    | some m =>
      rcases h : createThread env m md s with ⟨ok, s1, tr⟩
      cases ok
      · obtain ⟨hrec1, hrec2⟩ := ih s1 { r with failed := r.failed + 1 }
        dsimp only at hrec1 hrec2
        rw [processMembers_cons_some, h]
        refine ⟨?_, ?_⟩ <;> simp [List.countP_cons] <;> omega
      · obtain ⟨hpc1, hpc2⟩ := postCheckCount_counts env m s1 r
        obtain ⟨hrec1, hrec2⟩ := ih s1 (postCheckCount env m s1 r)
        rw [processMembers_cons_some, h]
        refine ⟨?_, ?_⟩ <;> simp [List.countP_cons] <;> omega

theorem processGroup_counts (env : Env) (g : GroupData) (s : Store)
    (hdef : ∀ x ∈ g.members, x.isSome = true) :
    (processGroup env (some g) s).1.success + (processGroup env (some g) s).1.skipped
        + (processGroup env (some g) s).1.failed
      = (processGroup env (some g) s).1.total := by
  obtain ⟨h1, h2⟩ := processMembers_counts env g.metadata g.members s
    ⟨0, 0, 0, g.members.length⟩
  have hc : g.members.countP (fun x => x.isSome) = g.members.length :=
    List.countP_eq_length.mpr (by intro a ha; simpa using hdef a ha)
  simp only [processGroup]
  dsimp only at h1 h2
  omega

theorem sum_counters : ∀ rs : List GroupResult,
    (∀ r ∈ rs, r.success + r.skipped + r.failed = r.total) →
      ((rs.map GroupResult.success).sum + (rs.map GroupResult.skipped).sum
          + (rs.map GroupResult.failed).sum
        = (rs.map GroupResult.total).sum) := by
  intro rs
  induction rs with
  | nil => intro h; simp
  | cons r rest ih =>
    intro h
    simp only [List.map_cons, List.sum_cons]
    have h1 := h r (List.mem_cons_self r rest)
    have h2 := ih (fun x hx => h x (List.mem_cons_of_mem r hx))
    omega

/-- Claim C10: for a batch of readable groups all of whose member entries
are defined, each record bumps exactly one counter, so
`success + skipped + failed = total` holds in every group summary, and the
overall summary obtained by summing each counter over the groups satisfies
the same identity. -/
theorem counters_partition (env : Env) (gds : List (Option GroupData)) (s : Store)
    (hdef : ∀ gd ∈ gds, ∀ g : GroupData, gd = some g → ∀ x ∈ g.members, x.isSome = true) :
    (∀ r ∈ (runGroups env gds s).1, r.success + r.skipped + r.failed = r.total) ∧
    (((runGroups env gds s).1.map GroupResult.success).sum
        + ((runGroups env gds s).1.map GroupResult.skipped).sum
        + ((runGroups env gds s).1.map GroupResult.failed).sum
      = ((runGroups env gds s).1.map GroupResult.total).sum) := by
  have hmem : ∀ r ∈ (runGroups env gds s).1,
      r.success + r.skipped + r.failed = r.total := by
    induction gds generalizing s with
    | nil => simp [runGroups]
    | cons gd rest ih =>
      intro r hr
      simp only [runGroups] at hr
      rcases List.mem_cons.mp hr with h1 | h1
      · subst h1
        cases gd with
        | none => simp [processGroup]
        | some g =>
          exact processGroup_counts env g s
            (hdef (some g) (List.mem_cons_self _ _) g rfl)
      · exact ih (processGroup env gd s).2
          (fun x hx gg hgg => hdef x (List.mem_cons_of_mem gd hx) gg hgg) r h1
  exact ⟨hmem, sum_counters _ hmem⟩

/-- Witness for `counters_partition` at a concrete batch. -/
theorem counters_partition_witness :
    ((runGroups envX gdsBad emptyStore).1.map GroupResult.success).sum
        + ((runGroups envX gdsBad emptyStore).1.map GroupResult.skipped).sum
        + ((runGroups envX gdsBad emptyStore).1.map GroupResult.failed).sum
      = ((runGroups envX gdsBad emptyStore).1.map GroupResult.total).sum :=
  (counters_partition envX gdsBad emptyStore (by decide)).2

end Supadb
